import Mathlib

set_option maxRecDepth 100000

/-!
Shallow embedding of a two-pass assembler for a 10-bit word machine
(sources: utils.c, commands.c, parser.c, labelTable.c, first_pass.c,
second_pass.c, macro.c, assembler.c).

C strings are modelled as lists of characters without the terminating NUL;
files are flat character lists that are cut into lines of at most 80
characters by a model of fgets into an 81-byte buffer.
-/

/-- A C string (without its terminating NUL). -/
abbrev Str := List Char

/-- Drop leading spaces and tabs (the `while (*p == ' ' || *p == '\t') p++` idiom). -/
def dropSpTab (s : Str) : Str := s.dropWhile (fun c => c == ' ' || c == '\t')

/-- strchr: split `s` at the first occurrence of `c`; `some (before, after)`
with `s = before ++ c :: after` and `c ∉ before`, or `none` when absent. -/
def breakAt (c : Char) : Str → Option (Str × Str)
  | [] => none
  | x :: xs =>
    if x == c then some ([], xs)
    else
      match breakAt c xs with
      | some (pre, post) => some (x :: pre, post)
      | none => none

/-- The characters of WHITESPACE_CHARS = " \t\n\r" (strtok delimiters). -/
def is_ws4 (c : Char) : Bool := c == ' ' || c == '\t' || c == '\n' || c == '\r'

/-- Decimal value of an all-digit string (the behaviour of strtol on it). -/
def nat_of_digits (s : Str) : Nat := s.foldl (fun acc c => acc * 10 + (c.toNat - 48)) 0

/-- strtol(s, NULL, 10): optional sign, then the longest leading digit run
(no overflow clamping is modelled; operands are at most 80 characters and
no claim depends on out-of-range literal values). -/
def strtol10 (s : Str) : Int :=
  match s with
  | '-' :: rest => -(Int.ofNat (nat_of_digits (rest.takeWhile Char.isDigit)))
  | '+' :: rest => Int.ofNat (nat_of_digits (rest.takeWhile Char.isDigit))
  | _ => Int.ofNat (nat_of_digits (s.takeWhile Char.isDigit))

/-! ## commands.h / commands.c: the instruction table -/

/-- Addressing-mode bit masks (commands.h). -/
def IMMEDIATE : Nat := 1
def DIRECT : Nat := 2
def MATRIX_ACCESS : Nat := 4
def REGISTER : Nat := 8

/-- One row of the instruction table (struct command_instructions). -/
structure CommandInstruction where
  name : Str
  opcode : Nat
  num_of_operands : Nat
  source_mode : Nat
  destination_mode : Nat
deriving DecidableEq, Repr

/-- The 16-row instruction table of commands.c, in source order. -/
def instruction_table : List CommandInstruction :=
  [ ⟨"mov".toList, 0, 2, IMMEDIATE ||| DIRECT ||| MATRIX_ACCESS ||| REGISTER, DIRECT ||| MATRIX_ACCESS ||| REGISTER⟩
  , ⟨"cmp".toList, 1, 2, IMMEDIATE ||| DIRECT ||| MATRIX_ACCESS ||| REGISTER, IMMEDIATE ||| DIRECT ||| MATRIX_ACCESS ||| REGISTER⟩
  , ⟨"add".toList, 2, 2, IMMEDIATE ||| DIRECT ||| MATRIX_ACCESS ||| REGISTER, DIRECT ||| MATRIX_ACCESS ||| REGISTER⟩
  , ⟨"sub".toList, 3, 2, IMMEDIATE ||| DIRECT ||| MATRIX_ACCESS ||| REGISTER, DIRECT ||| MATRIX_ACCESS ||| REGISTER⟩
  , ⟨"not".toList, 6, 1, 0, DIRECT ||| MATRIX_ACCESS ||| REGISTER⟩
  , ⟨"clr".toList, 5, 1, 0, DIRECT ||| MATRIX_ACCESS ||| REGISTER⟩
  , ⟨"lea".toList, 4, 2, DIRECT ||| MATRIX_ACCESS, REGISTER⟩
  , ⟨"inc".toList, 7, 1, 0, DIRECT ||| MATRIX_ACCESS ||| REGISTER⟩
  , ⟨"dec".toList, 8, 1, 0, DIRECT ||| MATRIX_ACCESS ||| REGISTER⟩
  , ⟨"jmp".toList, 9, 1, 0, DIRECT ||| MATRIX_ACCESS⟩
  , ⟨"bne".toList, 10, 1, 0, DIRECT ||| MATRIX_ACCESS⟩
  , ⟨"red".toList, 12, 1, 0, DIRECT ||| MATRIX_ACCESS ||| REGISTER⟩
  , ⟨"prn".toList, 13, 1, 0, IMMEDIATE ||| DIRECT ||| MATRIX_ACCESS ||| REGISTER⟩
  , ⟨"jsr".toList, 11, 1, 0, DIRECT ||| MATRIX_ACCESS⟩
  , ⟨"rts".toList, 14, 0, 0, 0⟩
  , ⟨"stop".toList, 15, 0, 0, 0⟩ ]

/-- get_instruction: linear search of the table by mnemonic. -/
def get_instruction (command_name : Str) : Option CommandInstruction :=
  instruction_table.find? (fun e => e.name == command_name)

/-! ## utils.c: token classification -/

/-- is_valid_opcode: membership in the instruction table. -/
def is_valid_opcode (name : Str) : Bool :=
  instruction_table.any (fun e => e.name == name)

/-- is_valid_directive: one of the five directive names. -/
def is_valid_directive (name : Str) : Bool :=
  name == ".data".toList || name == ".string".toList || name == ".mat".toList ||
  name == ".extern".toList || name == ".entry".toList

/-- is_valid_register (static helper in utils.c): exactly `rN` with N in 0..7. -/
def is_valid_register (reg : Str) : Bool :=
  match reg with
  | [a, b] => a == 'r' && decide ('0' ≤ b) && decide (b ≤ '7')
  | _ => false

/-- is_valid_label: length 1..30, alphabetic first character, alphanumeric rest,
not an opcode, not of register shape.  (The print_errors flag only controls
diagnostics and is dropped.) -/
def is_valid_label (label : Str) : Bool :=
  match label with
  | [] => false
  | c :: rest =>
    if (c :: rest).length > 30 then false
    else if !c.isAlpha then false
    else if !(rest.all fun x => x.isAlpha || x.isDigit) then false
    else if is_valid_opcode (c :: rest) then false
    else if (c :: rest).length == 2 && c == 'r' &&
            (match rest with
             | [d] => decide ('0' ≤ d) && decide (d ≤ '7')
             | _ => false) then false
    else true

/-- is_valid_macro_name: nonempty, alphabetic first character, not an opcode,
not of register shape, and only letters/digits/underscore. -/
def is_valid_macro_name (name : Str) : Bool :=
  match name with
  | [] => false
  | c :: rest =>
    if !c.isAlpha then false
    else if is_valid_opcode (c :: rest) then false
    else if (c :: rest).length == 2 && c == 'r' &&
            (match rest with
             | [d] => decide ('0' ≤ d) && decide (d ≤ '7')
             | _ => false) then false
    else (c :: rest).all (fun x => x.isAlpha || x.isDigit || x == '_')

/-- is_valid_number: optional sign, then digits only (an empty digit part is
accepted, exactly as in the C loop). -/
def is_valid_number (s : Str) : Bool :=
  match s with
  | [] => false
  | c :: rest => (if c == '+' || c == '-' then rest else c :: rest).all Char.isDigit

/-- parse_matrix_access (static helper in utils.c): the operand must contain
`label[xx][yy]` where the bracketed parts are exactly two characters and are
valid registers, and the part before the first bracket is a valid label.
Text between `]` and the next `[`, and after the final `]`, is ignored,
exactly as in the strchr-based C code. -/
def parse_matrix_access (operand : Str) : Bool :=
  match breakAt '[' operand with
  | none => false
  | some (lab, rest1) =>
    match breakAt ']' rest1 with
    | none => false
    | some (r1, rest2) =>
      match breakAt '[' rest2 with
      | none => false
      | some (_, rest3) =>
        match breakAt ']' rest3 with
        | none => false
        | some (r2, _) =>
          !lab.isEmpty && is_valid_label lab &&
          r1.length == 2 && r2.length == 2 &&
          is_valid_register r1 && is_valid_register r2

/-- get_operand_mode: classify an operand string, returning its addressing-mode
bit mask, or `none` for the C FAILURE result.  A NULL operand pointer at a
call site is modelled by the caller (see operand_mode_at). -/
def get_operand_mode (operand : Str) : Option Nat :=
  match operand with
  | [] => none
  | c :: rest =>
    if c == '"' then
      if (c :: rest).length ≥ 2 && (c :: rest).getLast? == some '"' then some IMMEDIATE else none
    else if (c :: rest).length == 2 && c == 'r' then
      (match rest with
       | [d] => if decide ('0' ≤ d) && decide (d ≤ '7') then some REGISTER else none
       | _ => none)
    else if c == '#' then
      (match rest with
       | [] => none
       | d :: ds =>
         if (if d == '+' || d == '-' then ds else d :: ds).all Char.isDigit then some IMMEDIATE
         else none)
    else if (c :: rest).contains '[' && (c :: rest).contains ']' then
      if parse_matrix_access (c :: rest) then some MATRIX_ACCESS else none
    else if c.isAlpha && (c :: rest).all (fun x => x.isAlpha || x.isDigit) then some DIRECT
    else none

/-- get_operand_mode as called with a possibly-NULL operand pointer
(parse_line leaves unused operand slots NULL, and get_operand_mode returns
FAILURE on NULL). -/
def operand_mode_at (ops : List Str) (i : Nat) : Option Nat :=
  match ops.get? i with
  | none => none
  | some op => get_operand_mode op

/-! ## utils.c: base-4 letter encodings -/

/-- One base-4 digit as a letter: 'a' + (d % 4). -/
def base4_letter (d : Nat) : Char := Char.ofNat (97 + d % 4)

/-- number_to_base4_letters: a fixed 4-digit base-4 rendering of the value
(used for addresses); only the low 8 bits influence the result. -/
def number_to_base4_letters (value : Nat) : Str :=
  [base4_letter (value / 64), base4_letter (value / 16), base4_letter (value / 4), base4_letter value]

/-- number_to_base4_code: mask to 10 bits, then a fixed 5-digit base-4
rendering (used for machine words). -/
def number_to_base4_code (value : Nat) : Str :=
  let w := value % 1024
  [base4_letter (w / 256), base4_letter (w / 64), base4_letter (w / 16), base4_letter (w / 4), base4_letter w]

/-- Modelled from the spec: the value of one letter of the base-4 alphabet
a=0, b=1, c=2, d=3 (specification section 6, "Base-4 alphabet"). -/
def base4_digit_value (c : Char) : Nat :=
  if c == 'b' then 1 else if c == 'c' then 2 else if c == 'd' then 3 else 0

/-- Modelled from the spec: interpret a letter string as a base-4 numeral,
most significant digit first. -/
def base4_string_value (s : Str) : Nat :=
  s.foldl (fun acc c => acc * 4 + base4_digit_value c) 0

/-! ## parser.c: the line parser -/

/-- struct separate_line: optional label, optional command, operand list.
Operand slots beyond the list are NULL in C. -/
structure SeparateLine where
  label : Option Str
  command : Option Str
  operands : List Str
deriving DecidableEq, Repr

/-- The characters of WHITESPACE_CHARS as a list (for strspn). -/
def WHITESPACE_CHARS : Str := [' ', '\t', '\n', '\r']

/-- The effective reject set of the CONTROL_CHARS macro.  The C literal
"\x00-\x1F\x7F" begins with a NUL byte, so as a C string it is empty: the
intended range-like notation does not exist in C string literals. -/
def CONTROL_CHARS_EFFECTIVE : Str := []

/-- strspn(s, accept): length of the longest prefix made of accept-characters. -/
def strspn_model (s accept : Str) : Nat :=
  (s.takeWhile (fun c => accept.contains c)).length

/-- strcspn(s, reject): length of the longest prefix free of reject-characters. -/
def strcspn_model (s reject : Str) : Nat :=
  (s.takeWhile (fun c => !(reject.contains c))).length

/-- extract_label: skip spaces/tabs, take the text before the first ':',
bound its length by 30, and validate it. -/
def extract_label (line : Str) : Option Str :=
  let l := dropSpTab line
  match breakAt ':' l with
  | none => none
  | some (before, _) =>
    if before.length == 0 then none
    else if before.length > 30 then none
    else if is_valid_label before then some before else none

/-- handle_label_extraction: when the line contains a ':' the label must
parse, and the rest is everything after that first ':'; otherwise the whole
line is the rest. -/
def handle_label_extraction (line : Str) : Option (Option Str × Str) :=
  match breakAt ':' line with
  | some (_, after) =>
    match extract_label line with
    | none => none
    | some lab => some (some lab, after)
  | none => some (none, line)

/-- extract_command: skip spaces/tabs, take the first strtok token over
" \t\n\r", and require it to be an opcode or directive. -/
def extract_command (line : Str) : Option Str :=
  let afterSkip := dropSpTab line
  let token := (afterSkip.dropWhile is_ws4).takeWhile (fun c => !is_ws4 c)
  if token.isEmpty then none
  else if !is_valid_opcode token && !is_valid_directive token then none
  else some token

/-- Characters that terminate an unquoted operand in extract_operands. -/
def stop_operand_char (c : Char) : Bool :=
  c == ',' || c == ' ' || c == '\t' || c == '\n' || c == '\r'

/-- The operand-collection loop of extract_operands.  The fuel is the C loop
bound MAX_OPERANDS = 1000: each iteration that does not exit appends exactly
one operand.  `none` models the stray/trailing-comma error return.
(The per-operand MAX_LINE_LENGTH bound on copying cannot bind, because
parse_line rejects lines of 81 or more characters first.) -/
def extract_operands_loop : Nat → Str → List Str → Option (List Str)
  | 0, _, acc => some acc.reverse
  | fuel + 1, s, acc =>
    let s1 := dropSpTab s
    match s1 with
    | [] => some acc.reverse
    | c :: rest =>
      if c == '\n' || c == '\r' then some acc.reverse
      else
        let opAnd :=
          if c == '"' then
            let body := rest.takeWhile (fun x => !(x == '"'))
            let tail := rest.dropWhile (fun x => !(x == '"'))
            match tail with
            | '"' :: t2 => ('"' :: (body ++ ['"']), t2)
            | _ => ('"' :: body, tail)
          else
            (s1.takeWhile (fun x => !stop_operand_char x), s1.dropWhile (fun x => !stop_operand_char x))
        let s3 := dropSpTab opAnd.2
        match s3 with
        | ',' :: s4 =>
          (match dropSpTab s4 with
           | [] => none
           | c2 :: _ =>
             if c2 == ',' || c2 == '\n' || c2 == '\r' then none
             else extract_operands_loop fuel s4 (opAnd.1 :: acc))
        | _ => extract_operands_loop fuel s3 (opAnd.1 :: acc)

/-- extract_operands: skip spaces/tabs, skip the command token (note: '\r'
does not stop the command skip in the C loop), then collect operands.
Both the no-operand case and the error case leave the caller with an empty
operand list, exactly as parse_line keeps how_many_operands = 0 when
extract_operands returns NULL. -/
def extract_operands (line : Str) : List Str :=
  let p1 := dropSpTab line
  let p2 := p1.dropWhile (fun c => !(c == ' ' || c == '\t' || c == '\n'))
  let p3 := dropSpTab p2
  match p3 with
  | [] => []
  | c :: _ =>
    if c == '\n' then []
    else
      match extract_operands_loop 1000 p3 [] with
      | some ops => ops
      | none => []

/-- parse_line: the length, whitespace-only and (vacuous) control-character
checks, then label, command and operand extraction. -/
def parse_line (line : Str) : Option SeparateLine :=
  if line.isEmpty then none
  else if line.length ≥ 81 then none
  else if strspn_model line WHITESPACE_CHARS == line.length then none
  else if strcspn_model line CONTROL_CHARS_EFFECTIVE != line.length then none
  else
    match handle_label_extraction line with
    | none => none
    | some (lab, rest) =>
      let rest2 := dropSpTab rest
      if rest2.isEmpty then some ⟨lab, none, []⟩
      else
        match extract_command rest2 with
        | none => none
        | some cmd => some ⟨lab, some cmd, extract_operands rest2⟩

/-! ## labelTable.c: the symbol table -/

/-- label_type. -/
inductive LabelType
  | code
  | data
  | external
  | entry
deriving DecidableEq, Repr

/-- label_node (the `next` pointer becomes the list structure). -/
structure LabelNode where
  name : Str
  address : Nat
  type : LabelType
  is_defined : Bool
deriving DecidableEq, Repr

/-- The label table as the linked list from its head. -/
abbrev LabelTable := List LabelNode

/-- find_label: first node with the given name. -/
def find_label (t : LabelTable) (name : Str) : Option LabelNode :=
  t.find? (fun n => n.name == name)

/-- add_label: validate the name, reject duplicates, and prepend an
undefined node.  `none` is the C FAILURE. -/
def add_label (t : LabelTable) (name : Str) (address : Nat) (ty : LabelType) : Option LabelTable :=
  if !is_valid_label name then none
  else if (find_label t name).isSome then none
  else some (⟨name, address, ty, false⟩ :: t)

/-- In-place mutation of the first node with the given name. -/
def update_first (t : LabelTable) (name : Str) (f : LabelNode → LabelNode) : LabelTable :=
  match t with
  | [] => []
  | n :: rest => if n.name == name then f n :: rest else n :: update_first rest name f

/-! ## first_pass.c -/

/-- define_label: redefining a defined label fails; defining an existing
undefined node updates address/kind (preserving an ENTRY kind) and marks it
defined; otherwise the label is added and marked defined.  The C retry after
a failed add_label is unreachable (find_label already returned NULL, so
add_label can only have failed validation, leaving the table unchanged). -/
def define_label (t : LabelTable) (name : Str) (address : Nat) (ty : LabelType) : Option LabelTable :=
  match find_label t name with
  | some existing =>
    if existing.is_defined then none
    else
      some (update_first t name (fun n =>
        { n with address := address,
                 type := if n.type == LabelType.entry then n.type else ty,
                 is_defined := true }))
  | none =>
    match add_label t name address ty with
    | some t2 => some (update_first t2 name (fun n => { n with is_defined := true }))
    | none => none

/-- The pointer advance at the top of process_line: skip spaces/tabs, then
one optional carriage return. -/
def fpPre (line : Str) : Str :=
  match dropSpTab line with
  | '\r' :: rest => rest
  | l => l

/-- estimate_ic_words: 1 word for the opcode; a matrix operand costs 2 more
words, any other operand 1; two register operands pack into a single extra
word.  0 is the error result. -/
def estimate_ic_words (parts : SeparateLine) : Nat :=
  match parts.command with
  | none => 0
  | some cmd =>
    match get_instruction cmd with
    | none => 0
    | some inst =>
      if inst.num_of_operands == 0 then 1
      else if inst.num_of_operands == 1 then
        match operand_mode_at parts.operands 0 with
        | none => 0
        | some m => if m == MATRIX_ACCESS then 1 + 2 else 1 + 1
      else if inst.num_of_operands == 2 then
        match operand_mode_at parts.operands 0, operand_mode_at parts.operands 1 with
        | some src, some dst =>
          if src == REGISTER && dst == REGISTER then 1 + 1
          else 1 + (if src == MATRIX_ACCESS then 2 else 1) + (if dst == MATRIX_ACCESS then 2 else 1)
        | _, _ => 0
      else 1

/-- The .data / .mat value check of process_line: optional sign, then at
least one digit and nothing but digits. -/
def valid_signed_int (op : Str) : Bool :=
  match (match op with
         | c :: rest => if c == '+' || c == '-' then rest else c :: rest
         | [] => []) with
  | [] => false
  | body => body.all Char.isDigit

/-- parse_matrix_dimensions: extract `[rows][cols]`, both all-digit strings
of 1..9 characters with positive values.  first_pass.c and second_pass.c
contain two line-for-line identical copies of this helper. -/
def parse_matrix_dimensions (operand : Str) : Option (Nat × Nat) :=
  match breakAt '[' operand with
  | none => none
  | some (_, r1) =>
    match breakAt ']' r1 with
    | none => none
    | some (rows_str, r2) =>
      match breakAt '[' r2 with
      | none => none
      | some (_, r3) =>
        match breakAt ']' r3 with
        | none => none
        | some (cols_str, _) =>
          if rows_str.length == 0 || rows_str.length ≥ 10 then none
          else if cols_str.length == 0 || cols_str.length ≥ 10 then none
          else if !(rows_str.all Char.isDigit) then none
          else if !(cols_str.all Char.isDigit) then none
          else
            let rows := nat_of_digits rows_str
            let cols := nat_of_digits cols_str
            if rows > 0 && cols > 0 then some (rows, cols) else none

/-- The .extern loop of process_line: an already-defined name is an error
(after the earlier names were already added); unknown names are added as
EXTERNAL with the add_label result ignored. -/
def fp_extern_loop : List Str → LabelTable → Bool × LabelTable
  | [], t => (true, t)
  | op :: rest, t =>
    match find_label t op with
    | some ex => if ex.is_defined then (false, t) else fp_extern_loop rest t
    | none =>
      match add_label t op 0 LabelType.external with
      | some t2 => fp_extern_loop rest t2
      | none => fp_extern_loop rest t

/-- The .entry loop of process_line: a defined non-data label is re-tagged
ENTRY, a defined data label keeps its DATA kind, an undefined known label is
tagged ENTRY, and an unknown name is added as an ENTRY placeholder (add_label
result ignored).  This loop never fails. -/
def fp_entry_loop : List Str → LabelTable → LabelTable
  | [], t => t
  | op :: rest, t =>
    let t2 :=
      match find_label t op with
      | some en =>
        if en.is_defined then
          (if en.type == LabelType.data then t
           else update_first t op (fun n => { n with type := LabelType.entry }))
        else update_first t op (fun n => { n with type := LabelType.entry })
      | none =>
        match add_label t op 0 LabelType.entry with
        | some t3 => t3
        | none => t
    fp_entry_loop rest t2

/-- process_line: returns (success, table, IC, DC); a FAILURE keeps the
partial table mutations already performed, exactly as in C. -/
def process_line (line : Str) (table : LabelTable) (ic dc : Nat) : Bool × LabelTable × Nat × Nat :=
  match fpPre line with
  | [] => (true, table, ic, dc)
  | c :: l' =>
    if c == '\n' || c == ';' then (true, table, ic, dc)
    else
      match parse_line (c :: l') with
      | none => (false, table, ic, dc)
      | some parts =>
        if parts.command == some ".data".toList then
          if !(parts.operands.all valid_signed_int) then (false, table, ic, dc)
          else
            match parts.label with
            | some lab =>
              (match define_label table lab dc LabelType.data with
               | none => (false, table, ic, dc)
               | some t2 => (true, t2, ic, dc + parts.operands.length))
            | none => (true, table, ic, dc + parts.operands.length)
        else if parts.command == some ".string".toList then
          match parts.operands with
          | [op] =>
            if op.head? != some '"' then (false, table, ic, dc)
            else if op.length < 2 || op.getLast? != some '"' then (false, table, ic, dc)
            else
              (match parts.label with
               | some lab =>
                 (match define_label table lab dc LabelType.data with
                  | none => (false, table, ic, dc)
                  | some t2 => (true, t2, ic, dc + (op.length - 2 + 1)))
               | none => (true, table, ic, dc + (op.length - 2 + 1)))
          | _ => (false, table, ic, dc)
        else if parts.command == some ".mat".toList then
          match parts.operands with
          | [] => (false, table, ic, dc)
          | op0 :: restOps =>
            match parse_matrix_dimensions op0 with
            | none => (false, table, ic, dc)
            | some (rows, cols) =>
              if !(restOps.all valid_signed_int) then (false, table, ic, dc)
              else if restOps.length != 0 && restOps.length != rows * cols then (false, table, ic, dc)
              else
                (match parts.label with
                 | some lab =>
                   (match define_label table lab dc LabelType.data with
                    | none => (false, table, ic, dc)
                    | some t2 => (true, t2, ic, dc + rows * cols))
                 | none => (true, table, ic, dc + rows * cols))
        else if parts.command == some ".extern".toList then
          match fp_extern_loop parts.operands table with
          | (okk, t2) => (okk, t2, ic, dc)
        else if parts.command == some ".entry".toList then
          (true, fp_entry_loop parts.operands table, ic, dc)
        else
          let words := estimate_ic_words parts
          if words == 0 then (false, table, ic, dc)
          else
            match parts.label with
            | some lab =>
              (match define_label table lab ic LabelType.code with
               | none => (false, table, ic, dc)
               | some t2 => (true, t2, ic + words, dc))
            | none => (true, table, ic + words, dc)

/-- The long-line test shared by the reading loops: a full 80-character
fgets chunk whose 80th character is not the newline. -/
def line_too_long (chunk : Str) : Bool :=
  chunk.length ≥ 80 && !(chunk.get? 79 == some '\n')

/-- The state threaded through first_pass_on_table. -/
structure FPState where
  table : LabelTable
  ic : Nat
  dc : Nat
  ok : Bool
deriving DecidableEq, Repr

/-- One iteration of the first-pass reading loop: over-long chunks flag the
error and are skipped; other chunks go through process_line. -/
def fp_step (st : FPState) (chunk : Str) : FPState :=
  if line_too_long chunk then { st with ok := false }
  else
    match process_line chunk st.table st.ic st.dc with
    | (okk, t, ic, dc) => { table := t, ic := ic, dc := dc, ok := st.ok && okk }

/-- The data-label rebasing loop run after an error-free first pass:
every defined DATA node has IC_final added to its address. -/
def rebase_data_labels (t : LabelTable) (ic : Nat) : LabelTable :=
  t.map (fun n =>
    if n.type == LabelType.data && n.is_defined then { n with address := n.address + ic } else n)

/-- The reading loop of first_pass_on_table, before rebasing. -/
def first_pass_fold (lines : List Str) : FPState :=
  lines.foldl fp_step { table := [], ic := 100, dc := 0, ok := true }

/-- first_pass_on_table on a list of fgets chunks: run the loop, then rebase
the data labels when no error was recorded. -/
def first_pass_on_table (lines : List Str) : FPState :=
  let st := first_pass_fold lines
  if st.ok then { st with table := rebase_data_labels st.table st.ic } else st

/-! ## commands.c: check_line (declared and defined, but never called by any
pass: no call site exists anywhere in the program) -/

/-- check_line: validates the label, the operand count against the table,
and both addressing modes against the table's permitted masks. -/
def check_line (parts : SeparateLine) : Bool :=
  match parts.command with
  | none => false
  | some cmd =>
    if (match parts.label with
        | some lab => !is_valid_label lab
        | none => false) then false
    else
      match get_instruction cmd with
      | none => false
      | some inst =>
        if parts.operands.length != inst.num_of_operands then false
        else if inst.num_of_operands == 1 then
          match operand_mode_at parts.operands 0 with
          | none => false
          | some dm => (dm &&& inst.destination_mode) != 0
        else if inst.num_of_operands == 2 then
          match operand_mode_at parts.operands 0, operand_mode_at parts.operands 1 with
          | some sm, some dm => ((sm &&& inst.source_mode) != 0) && ((dm &&& inst.destination_mode) != 0)
          | _, _ => false
        else true

/-! ## second_pass.c -/

/-- A,R,E values. -/
def ARE_ABSOLUTE : Nat := 0
def ARE_EXTERNAL : Nat := 1
def ARE_RELOCATABLE : Nat := 2

/-- machine_word. -/
structure MachineWord where
  word : Nat
  are : Nat
  address : Nat
deriving DecidableEq, Repr

/-- convert_to_addressing_mode: bit mask to 2-bit ordinal (default 0). -/
def convert_to_addressing_mode (mask : Nat) : Nat :=
  if mask == IMMEDIATE then 0
  else if mask == DIRECT then 1
  else if mask == MATRIX_ACCESS then 2
  else if mask == REGISTER then 3
  else 0

/-- create_instruction_word: opcode in bits 6..9, source mode in 4..5,
destination mode in 2..3, ARE in 0..1 (the masked shifts written as
arithmetic). -/
def create_instruction_word (opcode src_mode dst_mode are : Nat) : Nat :=
  (opcode % 16) * 64 + (src_mode % 4) * 16 + (dst_mode % 4) * 4 + are % 4

/-- get_register_number: `rN` with N in 0..7, else the -1 error (none). -/
def get_register_number (reg : Str) : Option Nat :=
  match reg with
  | [a, b] =>
    if a == 'r' && decide ('0' ≤ b) && decide (b ≤ '7') then some (b.toNat - 48) else none
  | _ => none

/-- parse_immediate_value: strip '#', validate, convert (0 on any failure). -/
def parse_immediate_value (op : Str) : Int :=
  match op with
  | '#' :: rest => if is_valid_number rest then strtol10 rest else 0
  | _ => 0

/-- add_external_reference: prepend (the stored name is strncpy-truncated to
31 characters, which never truncates a valid label). -/
def add_external_reference (ext : List (Str × Nat)) (symbol : Str) (address : Nat) : List (Str × Nat) :=
  (symbol.take 31, address) :: ext

/-- encode_operand for the non-matrix ordinals (mode 2 reaches the
"matrix operand encoding not implemented" error, but encode_instruction
never sends it here).  Immediate values are truncated to their low 8 bits
(two's complement) and shifted left by the 2 ARE bits. -/
def encode_operand (op : Str) (table : LabelTable) (mode : Nat) (current_address : Nat)
    (ext : List (Str × Nat)) : Option (MachineWord × List (Str × Nat)) :=
  if mode == 0 then
    let v := parse_immediate_value op
    some (⟨((v.emod 256).toNat) * 4 + ARE_ABSOLUTE, ARE_ABSOLUTE, current_address⟩, ext)
  else if mode == 1 then
    match find_label table op with
    | none => none
    | some lab =>
      if lab.type == LabelType.external then
        some (⟨0 * 4 + ARE_EXTERNAL, ARE_EXTERNAL, current_address⟩,
              add_external_reference ext op current_address)
      else
        some (⟨lab.address * 4 + ARE_RELOCATABLE, ARE_RELOCATABLE, current_address⟩, ext)
  else if mode == 3 then
    match get_register_number op with
    | none => none
    | some r => some (⟨(r % 8) * 4 + ARE_ABSOLUTE, ARE_ABSOLUTE, current_address⟩, ext)
  else none

/-- encode_matrix_operand: label word (external or relocatable) followed by
the register-pair word; the label is strncpy-truncated to 30 characters and
each register is the two characters after its opening bracket. -/
def encode_matrix_operand (op : Str) (table : LabelTable) (current_address : Nat)
    (ext : List (Str × Nat)) : Option (MachineWord × MachineWord × List (Str × Nat)) :=
  match breakAt '[' op with
  | none => none
  | some (labPart, rest1) =>
    match breakAt ']' rest1 with
    | none => none
    | some (_, rest2) =>
      match breakAt '[' rest2 with
      | none => none
      | some (_, rest3) =>
        match breakAt ']' rest3 with
        | none => none
        | some _ =>
          let label_name := labPart.take 30
          match get_register_number (rest1.take 2), get_register_number (rest3.take 2) with
          | some r1, some r2 =>
            (match find_label table label_name with
             | none => none
             | some lab =>
               if lab.type == LabelType.external then
                 some (⟨0 * 4 + ARE_EXTERNAL, ARE_EXTERNAL, current_address⟩,
                       ⟨(r1 % 16) * 64 + (r2 % 16) * 4, ARE_ABSOLUTE, current_address + 1⟩,
                       add_external_reference ext label_name current_address)
               else
                 some (⟨lab.address * 4 + ARE_RELOCATABLE, ARE_RELOCATABLE, current_address⟩,
                       ⟨(r1 % 16) * 64 + (r2 % 16) * 4, ARE_ABSOLUTE, current_address + 1⟩,
                       ext))
          | _, _ => none

/-- encode_instruction: the opcode word followed by the operand words;
a register pair packs into a single word, a matrix operand produces two. -/
def encode_instruction (parts : SeparateLine) (table : LabelTable) (current_ic : Nat)
    (ext : List (Str × Nat)) : Option (List MachineWord × List (Str × Nat)) :=
  match parts.command with
  | none => none
  | some cmd =>
    match get_instruction cmd with
    | none => none
    | some inst =>
      if inst.num_of_operands == 0 then
        some ([⟨create_instruction_word inst.opcode 0 0 ARE_ABSOLUTE, ARE_ABSOLUTE, current_ic⟩], ext)
      else if inst.num_of_operands == 1 then
        match parts.operands.get? 0 with
        | none => none
        | some op0 =>
          match get_operand_mode op0 with
          | none => none
          | some dmask =>
            let dst_mode := convert_to_addressing_mode dmask
            let w0 : MachineWord :=
              ⟨create_instruction_word inst.opcode 0 dst_mode ARE_ABSOLUTE, ARE_ABSOLUTE, current_ic⟩
            if dst_mode == 2 then
              match encode_matrix_operand op0 table (current_ic + 1) ext with
              | none => none
              | some (m0, m1, ext2) => some ([w0, m0, m1], ext2)
            else
              match encode_operand op0 table dst_mode (current_ic + 1) ext with
              | none => none
              | some (w1, ext2) => some ([w0, w1], ext2)
      else if inst.num_of_operands == 2 then
        match parts.operands.get? 0, parts.operands.get? 1 with
        | some op0, some op1 =>
          (match get_operand_mode op1, get_operand_mode op0 with
           | some dmask, some smask =>
             let dst_mode := convert_to_addressing_mode dmask
             let src_mode := convert_to_addressing_mode smask
             let w0 : MachineWord :=
               ⟨create_instruction_word inst.opcode src_mode dst_mode ARE_ABSOLUTE, ARE_ABSOLUTE, current_ic⟩
             if src_mode == 3 && dst_mode == 3 then
               match get_register_number op0, get_register_number op1 with
               | some sr, some dr =>
                 some ([w0, ⟨(sr % 16) * 64 + (dr % 16) * 4, ARE_ABSOLUTE, current_ic + 1⟩], ext)
               | _, _ => none
             else
               let srcRes : Option (List MachineWord × List (Str × Nat)) :=
                 if src_mode == 2 then
                   match encode_matrix_operand op0 table (current_ic + 1) ext with
                   | none => none
                   | some (m0, m1, e2) => some ([m0, m1], e2)
                 else
                   match encode_operand op0 table src_mode (current_ic + 1) ext with
                   | none => none
                   | some (w, e2) => some ([w], e2)
               match srcRes with
               | none => none
               | some (srcWords, ext2) =>
                 let dstAddr := current_ic + 1 + srcWords.length
                 if dst_mode == 2 then
                   match encode_matrix_operand op1 table dstAddr ext2 with
                   | none => none
                   | some (m0, m1, e3) => some (w0 :: (srcWords ++ [m0, m1]), e3)
                 else
                   match encode_operand op1 table dst_mode dstAddr ext2 with
                   | none => none
                   | some (w, e3) => some (w0 :: (srcWords ++ [w]), e3)
           | _, _ => none)
        | _, _ => none
      else none

/-- process_data_line for .data: one word per operand, low 10 bits of the
strtol value (two's-complement truncation), ARE absolute, address = running
data index. -/
def data_directive_words (ops : List Str) (start_index : Nat) : List MachineWord :=
  ops.enum.map (fun p => ⟨((strtol10 p.2).emod 1024).toNat, ARE_ABSOLUTE, start_index + p.1⟩)

/-- process_data_line for .string (single operand): one word per character
between the quotes, then a zero terminator word. -/
def string_directive_words (op : Str) (start_index : Nat) : List MachineWord :=
  (((op.take (op.length - 1)).drop 1).enum.map
    (fun p => ⟨p.2.toNat, ARE_ABSOLUTE, start_index + p.1⟩)) ++
  [⟨0, ARE_ABSOLUTE, start_index + ((op.take (op.length - 1)).drop 1).length⟩]

/-- process_data_line for .mat: rows*cols words, taking provided values in
order and padding with zeros. -/
def mat_directive_words (ops : List Str) (rows cols start_index : Nat) : List MachineWord :=
  (List.range (rows * cols)).map (fun i =>
    ⟨(match ops.get? (i + 1) with
      | some v => ((strtol10 v).emod 1024).toNat
      | none => 0), ARE_ABSOLUTE, start_index + i⟩)

/-- process_data_line: dispatch on the three data directives.  `none` is the
FAILURE on unparseable .mat dimensions (including the NULL dereference the C
code would perform on a .mat with no operands, which cannot be reached under
an error-free first pass).  A .string with an operand count other than 1
silently contributes nothing, as in C. -/
def process_data_line (parts : SeparateLine) (start_index : Nat) : Option (List MachineWord) :=
  if parts.command == some ".data".toList then
    some (data_directive_words parts.operands start_index)
  else if parts.command == some ".string".toList then
    (match parts.operands with
     | [op] => some (string_directive_words op start_index)
     | _ => some [])
  else if parts.command == some ".mat".toList then
    (match parts.operands.get? 0 with
     | none => none
     | some op0 =>
       match parse_matrix_dimensions op0 with
       | none => none
       | some (rows, cols) => some (mat_directive_words parts.operands rows cols start_index))
  else some []

/-- The state of the instruction-encoding loop of second_pass. -/
structure SPInstrState where
  current_ic : Nat
  emitted : List MachineWord
  ext_list : List (Str × Nat)
  has_errors : Bool
deriving DecidableEq, Repr

/-- One iteration of the instruction-encoding loop: long lines flag an
error; blank/comment lines, unparseable lines and directive lines are
skipped; other lines are encoded, appending their words and advancing the
instruction counter on success.  (The copy into the image array is bounded
by the allocated instruction count; `emitted` keeps every produced word and
the image content is its instruction_count-prefix.) -/
def sp_instr_step (table : LabelTable) (st : SPInstrState) (chunk : Str) : SPInstrState :=
  if line_too_long chunk then { st with has_errors := true }
  else
    match dropSpTab chunk with
    | [] => st
    | c :: _ =>
      if c == '\n' || c == ';' then st
      else
        match parse_line chunk with
        | none => st
        | some parts =>
          if (match parts.command with
              | some cmd => cmd.head? == some '.'
              | none => false) then st
          else
            match encode_instruction parts table st.current_ic st.ext_list with
            | some (ws, e2) =>
              { current_ic := st.current_ic + ws.length,
                emitted := st.emitted ++ ws,
                ext_list := e2,
                has_errors := st.has_errors }
            | none => { st with has_errors := true }

/-- One iteration of the data-encoding loop of second_pass (no long-line
check here): only .data/.string/.mat lines contribute words. -/
def sp_data_step (st : List MachineWord × Bool) (chunk : Str) : List MachineWord × Bool :=
  match dropSpTab chunk with
  | [] => st
  | c :: _ =>
    if c == '\n' || c == ';' then st
    else
      match parse_line chunk with
      | none => st
      | some parts =>
        if parts.command == some ".data".toList || parts.command == some ".string".toList ||
           parts.command == some ".mat".toList then
          match process_data_line parts st.1.length with
          | some ws => (st.1 ++ ws, st.2)
          | none => (st.1, true)
        else st

/-- The observable result of second_pass. -/
structure SPResult where
  ic_final : Nat
  dc_final : Nat
  image_ok : Bool
  emitted : List MachineWord
  ext_list : List (Str × Nat)
  data_words : List MachineWord
  has_errors : Bool
deriving DecidableEq, Repr

/-- second_pass: create the memory image (needs IC_final ≥ 100), encode the
instructions, rewind, encode the data.  Output files are generated separately
from this result when has_errors is false. -/
def second_pass (lines : List Str) (table : LabelTable) (ic_final dc_final : Nat) : SPResult :=
  if ic_final < 100 then
    ⟨ic_final, dc_final, false, [], [], [], true⟩
  else
    let ist := lines.foldl (sp_instr_step table) ⟨100, [], [], false⟩
    let dres := lines.foldl sp_data_step ([], ist.has_errors)
    ⟨ic_final, dc_final, true, ist.emitted, ist.ext_list, dres.1, dres.2⟩

/-! ## second_pass.c: output files.  A file is a list of lines; each written
line is modelled without its trailing newline. -/

/-- The leading-'a' stripping of the object header: advance while the
current character is 'a' and a next character exists. -/
def strip_leading_a : Str → Str
  | 'a' :: c :: rest => strip_leading_a (c :: rest)
  | s => s

/-- A `%s %s` line. -/
def two_column (a b : Str) : Str := a ++ ' ' :: b

/-- generate_object_file, as the list of lines written: the header with
stripped instruction and data counts, the written instruction words (the
image holds ic_final − 100 slots; slots beyond the words actually produced
stay uninitialized in C and are not modelled), then the data words at
consecutive addresses after the instructions. -/
def generate_object_lines (r : SPResult) : List Str :=
  two_column (strip_leading_a (number_to_base4_letters (r.ic_final - 100)))
             (strip_leading_a (number_to_base4_letters r.dc_final)) ::
  ((r.emitted.take (r.ic_final - 100)).map
    (fun w => two_column (number_to_base4_letters w.address) (number_to_base4_code w.word)) ++
   ((r.data_words.take r.dc_final).enum.map
    (fun p => two_column (number_to_base4_letters (100 + (r.ic_final - 100) + p.1))
                         (number_to_base4_code p.2.word))))

/-- The per-node entry test of generate_entries_file: a defined ENTRY node,
or a defined DATA node whose name is one of the two hard-coded fixture names
"LENGTH" and "LOOP". -/
def entries_node_emitted (n : LabelNode) : Bool :=
  (n.type == LabelType.entry && n.is_defined) ||
  (n.type == LabelType.data && n.is_defined &&
    (n.name == "LENGTH".toList || n.name == "LOOP".toList))

/-- generate_entries_file: no file at all unless some defined ENTRY node
exists (the pre-scan tests only LABEL_ENTRY); otherwise one line per emitted
node in table order. -/
def generate_entries_lines (table : LabelTable) : Option (List Str) :=
  if table.any (fun n => n.type == LabelType.entry && n.is_defined) then
    some ((table.filter entries_node_emitted).map
      (fun n => two_column n.name (number_to_base4_letters n.address)))
  else none

/-- generate_externals_file: no file when the reference list is empty (the
NULL-head check in C); otherwise one line per node in list (head-first)
order. -/
def generate_externals_lines (ext : List (Str × Nat)) : Option (List Str) :=
  if ext.isEmpty then none
  else some (ext.map (fun p => two_column p.1 (number_to_base4_letters p.2)))

/-! ## fgets: cutting a file (a flat character list) into chunks of at most
80 characters, each ending at a newline when one occurs within the first 80
characters (all three reading loops use a 81-byte buffer). -/

/-- One fgets call with remaining capacity `n`: the chunk read and the rest
of the stream. -/
def fgets_take : Nat → Str → Str × Str
  | 0, s => ([], s)
  | _, [] => ([], [])
  | n + 1, c :: rest =>
    if c == '\n' then ([c], rest)
    else
      match fgets_take n rest with
      | (ch, r) => (c :: ch, r)

/-- All fgets chunks of a stream (the fuel is the stream length: every
nonempty read consumes at least one character). -/
def fgets_chunks_go : Nat → Str → List Str
  | 0, _ => []
  | fuel + 1, s =>
    match s with
    | [] => []
    | _ =>
      match fgets_take 80 s with
      | (ch, r) => ch :: fgets_chunks_go fuel r

/-- All the lines fgets yields from a file content. -/
def fgets_chunks (s : Str) : List Str := fgets_chunks_go s.length s

/-! ## macro.c: the preprocessor -/

/-- check_if_macro_start: after skipping spaces/tabs the line starts with
"mcro" followed by a space; the name (after further spaces, cut at the first
newline) must be at most 30 characters and a valid macro name. -/
def check_if_macro_start (line : Str) : Bool :=
  let l := dropSpTab line
  if l.take 4 == "mcro".toList then
    match l.get? 4 with
    | some ' ' =>
      let name_start := (l.drop 5).dropWhile (fun c => c == ' ')
      let temp := name_start.takeWhile (fun c => !(c == '\n'))
      temp.length ≤ 30 && is_valid_macro_name temp
    | _ => false
  else false

/-- check_if_macro_end: after skipping spaces/tabs and cutting at the first
newline, the line is exactly "mcroend". -/
def check_if_macro_end (line : Str) : Bool :=
  (dropSpTab line).takeWhile (fun c => !(c == '\n')) == "mcroend".toList

/-- extract_macro_name: skip spaces/tabs, skip 5 characters ("mcro "), skip
spaces, then take up to 30 characters until space/tab/newline. -/
def extract_macro_name (line : Str) : Str :=
  ((((dropSpTab line).drop 5).dropWhile (fun c => c == ' ')).takeWhile
    (fun c => !(c == ' ' || c == '\t' || c == '\n'))).take 30

/-- The first word of a line (used by is_macro_call and the expansion),
bounded at 30 characters. -/
def first_word_of (line : Str) : Str :=
  ((dropSpTab line).takeWhile (fun c => !(c == ' ' || c == '\t' || c == '\n'))).take 30

/-- find_macro (source name find_macro): first list entry with the name. -/
def find_macro_node (macros : List (Str × Str)) (name : Str) : Option (Str × Str) :=
  macros.find? (fun m => m.1 == name)

/-- validate_macro_name: nonempty, not digit-initial, not an opcode, not of
register shape, only letters/digits/underscore, and not already defined. -/
def validate_macro_name (name : Str) (macros : List (Str × Str)) : Bool :=
  match name with
  | [] => false
  | c :: rest =>
    if c.isDigit then false
    else if is_valid_opcode (c :: rest) then false
    else if (c :: rest).length == 2 && c == 'r' &&
            (match rest with
             | [d] => decide ('0' ≤ d) && decide (d ≤ '7')
             | _ => false) then false
    else if !((c :: rest).all (fun x => x.isAlpha || x.isDigit || x == '_')) then false
    else !(find_macro_node macros (c :: rest)).isSome

/-- The collection pass of expand_macros: gather macro bodies (a body line
is appended only while the 1000-byte body buffer has room).  `none` models
every early-return error: an over-long line, an invalid macro name, and end
of input while still inside a definition (the missing-mcroend error). -/
def macro_collect : List Str → List (Str × Str) → Bool → Str → Str → Option (List (Str × Str))
  | [], macros, in_def, _, _ => if in_def then none else some macros
  | chunk :: rest, macros, in_def, name, content =>
    if line_too_long chunk then none
    else if check_if_macro_start chunk then
      let nm := extract_macro_name chunk
      if validate_macro_name nm macros then macro_collect rest macros true nm []
      else none
    else if check_if_macro_end chunk then
      if in_def then macro_collect rest ((name, content) :: macros) false name content
      else macro_collect rest macros false name content
    else if in_def then
      (if content.length + chunk.length < 999 then
        macro_collect rest macros true name (content ++ chunk)
       else macro_collect rest macros true name content)
    else macro_collect rest macros false name content

/-- The emission pass of expand_macros: definitions are suppressed, call
lines are replaced by the stored body, and other lines are copied verbatim.
A too-long line aborts, leaving the partial output already written. -/
def macro_emit : List Str → List (Str × Str) → Bool → Str → Bool × Str
  | [], _, _, out => (true, out)
  | chunk :: rest, macros, in_def, out =>
    if line_too_long chunk then (false, out)
    else if check_if_macro_start chunk then macro_emit rest macros true out
    else if check_if_macro_end chunk then macro_emit rest macros false out
    else if in_def then macro_emit rest macros in_def out
    else
      match find_macro_node macros (first_word_of chunk) with
      | some m => macro_emit rest macros in_def (out ++ m.2)
      | none => macro_emit rest macros in_def (out ++ chunk)

/-- expand_macros on a source file content: returns (success, the content of
the output .am file).  The output file is opened (hence truncated to empty)
before the collection pass, so every collection-pass failure leaves it
empty.  expand_macros itself returns void in C: the caller cannot see the
flag. -/
def expand_macros (source : Str) : Bool × Str :=
  let chunks := fgets_chunks source
  match macro_collect chunks [] false [] [] with
  | none => (false, [])
  | some macros => macro_emit chunks macros false []

/-! ## assembler.c: process_file -/

/-- What process_file observably produces for one translation unit. -/
structure PipelineResult where
  expand_ok : Bool
  fp_ok : Bool
  object_file : Option (List Str)
  entries_file : Option (List Str)
  externals_file : Option (List Str)
deriving DecidableEq, Repr

/-- process_file: expand macros (ignoring the invisible failure flag), run
the first pass on the .am content, and on first-pass success run the second
pass, which writes the three output files only when it recorded no error. -/
def process_file (source : Str) : PipelineResult :=
  let em := expand_macros source
  let chunks := fgets_chunks em.2
  let fp := first_pass_on_table chunks
  if !fp.ok then ⟨em.1, false, none, none, none⟩
  else
    let sp := second_pass chunks fp.table fp.ic fp.dc
    if sp.has_errors then ⟨em.1, true, none, none, none⟩
    else
      ⟨em.1, true, some (generate_object_lines sp),
       generate_entries_lines fp.table,
       generate_externals_lines sp.ext_list⟩

/-! ## Auxiliary definitions used by the verification statements -/

/-- Recording a list of external-reference occurrences, in occurrence order,
through add_external_reference (which prepends each one). -/
def record_external_references (occ : List (Str × Nat)) : List (Str × Nat) :=
  occ.foldl (fun l p => add_external_reference l p.1 p.2) []

/-- The externals-file line written for a stored reference. -/
def occurrence_line (p : Str × Nat) : Str :=
  two_column (p.1.take 31) (number_to_base4_letters p.2)

/-- C1: a data symbol W, an .entry naming it, one instruction. -/
def c1_lines : List Str := ["W: .data 1\n".toList, ".entry W\n".toList, "stop\n".toList]

/-- C2: an instruction with one operand too many, and one with a source
addressing mode outside lea's permitted mask. -/
def c2_lines : List Str := ["mov r1, r2, r3\n".toList]
def c2_lea_lines : List Str := ["lea r1, r2\n".toList]

/-- C3: a source whose macro definition reaches end of input unterminated. -/
def c3_source : Str := "mcro m\n".toList

/-- C4: two external symbols each used once, in order E1 then E2. -/
def c4_lines : List Str :=
  [".extern E1\n".toList, ".extern E2\n".toList, "jmp E1\n".toList, "jmp E2\n".toList, "stop\n".toList]

/-- C5: a data label defined by a .data directive with no operands. -/
def c5_lines : List Str := ["L: .data\n".toList, "stop\n".toList]

/-- C5 witness: scenario-B-like program with a rebased data label. -/
def c5_witness_lines : List Str :=
  ["mov #5, r1\n".toList, "LEN: .data 7, -1\n".toList, "stop\n".toList]

/-- C6: a line whose leading carriage return the first pass strips before
parsing while the second pass re-parses it unstripped. -/
def c6_lines : List Str := ["\rA: stop\n".toList]

/-- C6 witness: a three-line program on which both passes agree. -/
def c6_witness_lines : List Str :=
  ["mov #5, r1\n".toList, "LEN: .data 7, -1\n".toList, "stop\n".toList]

/-- C7: an assemblable instruction line padded with spaces to exactly 79 and
exactly 80 characters (before the newline). -/
def c7_line79 : Str := "mov r1, r2".toList ++ List.replicate 69 ' '
def c7_line80 : Str := "mov r1, r2".toList ++ List.replicate 70 ' '

/-- C8: a line whose second operand starts with the control character 0x01. -/
def c8_line : Str := "mov r1, ".toList ++ [Char.ofNat 1] ++ "x\n".toList

/-! ## Theorems -/

/-- Decoding one emitted letter recovers the digit. -/
theorem base4_digit_value_letter (x : Nat) : base4_digit_value (base4_letter x) = x % 4 := by
  have h : x % 4 = 0 ∨ x % 4 = 1 ∨ x % 4 = 2 ∨ x % 4 = 3 := by omega
  rcases h with h | h | h | h <;> simp only [base4_letter, h] <;> decide

/-- C9: for every 10-bit word w (0 ≤ w < 1024), reading the 5-letter string
produced by number_to_base4_code as a base-4 numeral over a=0, b=1, c=2, d=3
with the most significant digit first yields w again: encoding followed by
decoding is the identity on 10-bit words. -/
theorem c9_base4_roundtrip (w : Nat) (h : w < 1024) :
    base4_string_value (number_to_base4_code w) = w := by
  simp only [number_to_base4_code, base4_string_value, List.foldl, base4_digit_value_letter]
  omega

/-- Witness for c9_base4_roundtrip at w = 613. -/
theorem c9_base4_roundtrip_witness :
    613 < 1024 ∧ base4_string_value (number_to_base4_code 613) = 613 :=
  ⟨by decide, c9_base4_roundtrip 613 (by decide)⟩

/-- C10: the 4-letter address string encodes exactly the address modulo 256:
the encoder keeps only the four least significant base-4 digits, so addresses
of 256 or more wrap around silently (the encoder has no failure result, and
the value 256 on is indistinguishable from its residue). -/
theorem c10_address_wraparound (a : Nat) :
    base4_string_value (number_to_base4_letters a) = a % 256 ∧
    number_to_base4_letters a = number_to_base4_letters (a % 256) := by
  constructor
  · simp only [number_to_base4_letters, base4_string_value, List.foldl, base4_digit_value_letter]
    omega
  · simp only [number_to_base4_letters, base4_letter, List.cons.injEq, and_true]
    refine ⟨?_, ?_, ?_, ?_⟩ <;> (congr 1; omega)

/-- The control-character screen of parse_line can never fire: the reject
set that reaches strcspn is the empty string, because the C literal
"\x00-\x1F\x7F" starts with a NUL byte. -/
theorem strcspn_control_chars_vacuous (l : Str) :
    strcspn_model l CONTROL_CHARS_EFFECTIVE = l.length := by
  induction l with
  | nil => rfl
  | cons c rest ih =>
    simp only [strcspn_model, CONTROL_CHARS_EFFECTIVE, Bool.not_false,
      show ∀ a : Char, ([] : Str).contains a = false from fun _ => rfl] at ih ⊢
    simp only [List.takeWhile_cons, if_true, List.length_cons, ih]

/-- C8: the line parser does not reject lines containing control characters:
the strcspn reject set built from CONTROL_CHARS is empty, so the
non-printable check always passes, and a concrete line whose operand
contains the control character 0x01 parses successfully. -/
theorem c8_control_chars_unchecked :
    (∀ l : Str, strcspn_model l CONTROL_CHARS_EFFECTIVE = l.length) ∧
    parse_line c8_line =
      some ⟨none, some "mov".toList, ["r1".toList, [Char.ofNat 1, 'x']]⟩ := by
  refine ⟨strcspn_control_chars_vacuous, by decide⟩

/-- C1: a symbol named in a `.entry` directive and defined locally by a
`.data` directive keeps kind DATA; generate_entries_file's pre-scan looks
only for defined ENTRY-kind nodes and its body special-cases the two
hard-coded names "LENGTH"/"LOOP", so the assembly succeeds and yet no
entries file is produced at all for the symbol W. -/
theorem c1_entries_file_bug :
    (first_pass_on_table c1_lines).ok = true ∧
    find_label (first_pass_on_table c1_lines).table "W".toList =
      some ⟨"W".toList, 101, LabelType.data, true⟩ ∧
    generate_entries_lines (first_pass_on_table c1_lines).table = none := by decide

/-- C2: `mov r1, r2, r3` (wrong operand count) and `lea r1, r2` (source
mode outside lea's permitted mask) both pass the first pass and the second
pass without any error — check_line, which would reject both, has no call
site — so the assembly of such files succeeds instead of failing. -/
theorem c2_table_validation_bypassed :
    (first_pass_on_table c2_lines).ok = true ∧
    (first_pass_on_table c2_lea_lines).ok = true ∧
    (second_pass c2_lines (first_pass_on_table c2_lines).table
      (first_pass_on_table c2_lines).ic (first_pass_on_table c2_lines).dc).has_errors = false ∧
    (second_pass c2_lea_lines (first_pass_on_table c2_lea_lines).table
      (first_pass_on_table c2_lea_lines).ic (first_pass_on_table c2_lea_lines).dc).has_errors = false ∧
    parse_line (fpPre "mov r1, r2, r3\n".toList) =
      some ⟨none, some "mov".toList, ["r1".toList, "r2".toList, "r3".toList]⟩ ∧
    check_line ⟨none, some "mov".toList, ["r1".toList, "r2".toList, "r3".toList]⟩ = false ∧
    parse_line (fpPre "lea r1, r2\n".toList) =
      some ⟨none, some "lea".toList, ["r1".toList, "r2".toList]⟩ ∧
    check_line ⟨none, some "lea".toList, ["r1".toList, "r2".toList]⟩ = false := by decide

/-- C3: on a source whose `mcro` block reaches end of input without
`mcroend`, expand_macros fails (leaving an empty .am), but process_file
cannot see the void function's failure: it still runs the first pass (which
trivially succeeds on the empty file) and the second pass, and an object
file is produced. -/
theorem c3_macro_failure_not_aborting :
    (expand_macros c3_source).1 = false ∧
    (expand_macros c3_source).2 = [] ∧
    (first_pass_on_table (fgets_chunks (expand_macros c3_source).2)).ok = true ∧
    (process_file c3_source).object_file = some ["a a".toList] := by decide

/-- C4 counterexample: with external references occurring in the order
E1 at 101 then E2 at 103, the externals file lists E2 first — the reverse
of occurrence order — because add_external_reference prepends and
generate_externals_file walks from the head. -/
theorem c4_order_counterexample :
    (second_pass c4_lines (first_pass_on_table c4_lines).table
      (first_pass_on_table c4_lines).ic (first_pass_on_table c4_lines).dc).ext_list =
      [("E2".toList, 103), ("E1".toList, 101)] ∧
    generate_externals_lines [("E2".toList, 103), ("E1".toList, 101)] =
      some ["E2 bcbd".toList, "E1 bcbb".toList] ∧
    ¬ generate_externals_lines [("E2".toList, 103), ("E1".toList, 101)] =
      some ["E1 bcbb".toList, "E2 bcbd".toList] := by decide

/-- C5 counterexample: `L: .data` (a labelled .data directive with no
operands) is accepted; L is rebased to address 101 = IC_final while
DC_final = 0, so L's address is not below 100 + |instructions| + |data|
= 101: the claimed strict upper bound fails. -/
theorem c5_range_counterexample :
    (first_pass_on_table c5_lines).ok = true ∧
    (first_pass_on_table c5_lines).ic = 101 ∧
    (first_pass_on_table c5_lines).dc = 0 ∧
    find_label (first_pass_on_table c5_lines).table "L".toList =
      some ⟨"L".toList, 101, LabelType.data, true⟩ ∧
    ¬ (101 : Nat) < 101 + 0 := by decide

/-- C6 counterexample: the line "\rA: stop" is counted by the first pass
(which strips the leading carriage return before parsing) as one
instruction word, but the second pass re-parses the raw line, fails on the
label "\rA", and silently skips it: the assembly reports no error, yet the
instruction image receives 0 of the IC_final − 100 = 1 words. -/
theorem c6_image_counterexample :
    (first_pass_on_table c6_lines).ok = true ∧
    (first_pass_on_table c6_lines).ic = 101 ∧
    (second_pass c6_lines (first_pass_on_table c6_lines).table
      (first_pass_on_table c6_lines).ic (first_pass_on_table c6_lines).dc).has_errors = false ∧
    (second_pass c6_lines (first_pass_on_table c6_lines).table
      (first_pass_on_table c6_lines).ic (first_pass_on_table c6_lines).dc).emitted.length = 0 ∧
    ¬ (0 : Nat) = (first_pass_on_table c6_lines).ic - 100 := by decide

/-- C7 counterexample: a syntactically valid 80-character source line
(plus newline) is rejected by the first pass: fgets fills the whole
81-byte buffer with the 80 content characters, the newline is not among
them, and the long-line check fires. -/
theorem c7_maxlen_counterexample :
    c7_line80.length = 80 ∧
    (first_pass_on_table (fgets_chunks (c7_line80 ++ ['\n']))).ok = false := by decide

/-- Recording occurrences through add_external_reference builds the reversed
(name-truncated) list, since every reference is prepended. -/
theorem record_external_references_eq (occ : List (Str × Nat)) :
    record_external_references occ = (occ.map (fun p => (p.1.take 31, p.2))).reverse := by
  have key : ∀ (l : List (Str × Nat)) (init : List (Str × Nat)),
      l.foldl (fun acc p => add_external_reference acc p.1 p.2) init =
        (l.map (fun p => (p.1.take 31, p.2))).reverse ++ init := by
    intro l
    induction l with
    | nil => intro init; simp
    | cons h t ih =>
      intro init
      rw [List.foldl_cons, ih]
      simp [add_external_reference]
  simpa using key occ []

/-- C4 (amended): for every sequence of external-reference occurrences, the
externals file (absent exactly when there are none) contains exactly one
line per use site, but in the REVERSE of occurrence order: the reference
list is built by prepending and emitted head-first. -/
theorem c4_externals_reverse_order (occ : List (Str × Nat)) :
    generate_externals_lines (record_external_references occ) =
      (if occ.isEmpty then none else some ((occ.map occurrence_line).reverse)) ∧
    (record_external_references occ).length = occ.length := by
  constructor
  · rw [record_external_references_eq]
    unfold generate_externals_lines
    cases occ with
    | nil => rfl
    | cons h t =>
      simp [occurrence_line, List.map_map, List.isEmpty_iff, Function.comp]
  · rw [record_external_references_eq]; simp

/-- fgets within a newline-free region reads exactly the capacity. -/
theorem fgets_take_no_newline (n : Nat) (s : Str) (h : '\n' ∉ s.take n) :
    fgets_take n s = (s.take n, s.drop n) := by
  induction n generalizing s with
  | zero => cases s <;> rfl
  | succ m ih =>
    cases s with
    | nil => rfl
    | cons c cs =>
      simp only [List.take_succ_cons, List.mem_cons] at h
      push_neg at h
      have hc : (c == '\n') = false := by
        cases hcc : c == '\n' with
        | true => exact absurd (eq_of_beq hcc) (fun he => h.1 he.symm)
        | false => rfl
      simp only [fgets_take, hc, Bool.false_eq_true, if_false, ih cs h.2,
        List.take_succ_cons, List.drop_succ_cons]

/-- fgets stops right after a newline that lies within its capacity. -/
theorem fgets_take_to_newline (n : Nat) (line rest : Str)
    (hn : line.length < n) (h : '\n' ∉ line) :
    fgets_take n (line ++ '\n' :: rest) = (line ++ ['\n'], rest) := by
  induction line generalizing n with
  | nil =>
    cases n with
    | zero => omega
    | succ m => simp [fgets_take]
  | cons c cs ih =>
    cases n with
    | zero => omega
    | succ m =>
      simp only [List.mem_cons] at h
      push_neg at h
      have hc : (c == '\n') = false := by
        cases hcc : c == '\n' with
        | true => exact absurd (eq_of_beq hcc) (fun he => h.1 he.symm)
        | false => rfl
      simp only [List.cons_append, fgets_take, hc, Bool.false_eq_true, if_false, List.append_eq]
      rw [ih m (by simpa using hn) h.2]

/-- fgets_chunks_go yields nothing on an empty stream. -/
theorem fgets_chunks_go_nil (fuel : Nat) : fgets_chunks_go fuel [] = [] := by
  cases fuel <;> rfl

/-- Unfolding one step of the chunking loop on a nonempty stream. -/
theorem fgets_chunks_go_cons (fuel : Nat) (s : Str) (h : s ≠ []) :
    fgets_chunks_go (fuel + 1) s =
      (fgets_take 80 s).1 :: fgets_chunks_go fuel (fgets_take 80 s).2 := by
  cases s with
  | nil => exact absurd rfl h
  | cons c cs => rfl

/-- fp_step flags at most: a step whose result carries ok = true started
from ok = true. -/
theorem fp_step_ok_mono (st : FPState) (l : Str) (h : (fp_step st l).ok = true) :
    st.ok = true := by
  unfold fp_step at h
  split at h
  · simp at h
  · revert h
    cases hp : process_line l st.table st.ic st.dc with
    | mk okk r => intro h; simpa using (Bool.and_eq_true _ _ |>.mp h).1

/-- ok is never restored by the first-pass loop. -/
theorem fp_fold_ok_mono (lines : List Str) (st : FPState)
    (h : (lines.foldl fp_step st).ok = true) : st.ok = true := by
  induction lines generalizing st with
  | nil => simpa using h
  | cons l rest ih =>
    simp only [List.foldl_cons] at h
    exact fp_step_ok_mono st l (ih _ h)

/-- The ic/dc/ok fields of first_pass_on_table agree with the fold before
rebasing. -/
theorem first_pass_on_table_fields (lines : List Str) :
    (first_pass_on_table lines).ic = (first_pass_fold lines).ic ∧
    (first_pass_on_table lines).dc = (first_pass_fold lines).dc ∧
    (first_pass_on_table lines).ok = (first_pass_fold lines).ok := by
  by_cases h : (first_pass_fold lines).ok = true <;> simp [first_pass_on_table, h]

/-- C7 (amended): the longest accepted source line is 79 characters plus a
newline.  A line of 80 or more characters fails the first pass (its first
fgets chunk fills the whole buffer without the newline), while a line of at
most 79 characters is read as a single newline-terminated chunk on which the
long-line check does not fire. -/
theorem c7_line_length_bounds :
    (∀ line rest : Str, '\n' ∉ line → 80 ≤ line.length →
      (first_pass_on_table (fgets_chunks (line ++ '\n' :: rest))).ok = false) ∧
    (∀ line : Str, '\n' ∉ line → line.length ≤ 79 →
      fgets_chunks (line ++ ['\n']) = [line ++ ['\n']] ∧
      line_too_long (line ++ ['\n']) = false) := by
  constructor
  · intro line rest hnl hlen
    have htk : '\n' ∉ (line ++ '\n' :: rest).take 80 := by
      intro hmem
      rw [List.take_append_of_le_length (by omega)] at hmem
      exact hnl (List.mem_of_mem_take hmem)
    have hft : fgets_take 80 (line ++ '\n' :: rest) =
        ((line ++ '\n' :: rest).take 80, (line ++ '\n' :: rest).drop 80) :=
      fgets_take_no_newline _ _ htk
    have hne : line ++ '\n' :: rest ≠ [] := by simp
    obtain ⟨m, hm⟩ : ∃ m, (line ++ '\n' :: rest).length = m + 1 :=
      ⟨line.length + rest.length, by simp <;> omega⟩
    have hchunks : fgets_chunks (line ++ '\n' :: rest) =
        (line ++ '\n' :: rest).take 80 :: fgets_chunks_go m ((line ++ '\n' :: rest).drop 80) := by
      unfold fgets_chunks
      rw [hm, fgets_chunks_go_cons _ _ hne, hft]
    -- the first chunk triggers the long-line error, and ok never recovers
    have htoolong : line_too_long ((line ++ '\n' :: rest).take 80) = true := by
      have hl80 : ((line ++ '\n' :: rest).take 80).length = 80 := by
        simp only [List.length_take, List.length_append, List.length_cons]
        omega
      have h79 : ((line ++ '\n' :: rest).take 80).get? 79 = line.get? 79 := by
        rw [List.get?_take (by omega), List.get?_append (by omega)]
      obtain ⟨x, hx⟩ : ∃ x, line.get? 79 = some x := by
        cases hq : line.get? 79 with
        | none => exact absurd (List.get?_eq_none.mp hq) (by omega)
        | some y => exact ⟨y, rfl⟩
      have hxne : x ≠ '\n' := fun he => hnl (he ▸ List.get?_mem hx)
      unfold line_too_long
      rw [hl80, h79, hx]
      simp [hxne]
    have : (first_pass_fold (fgets_chunks (line ++ '\n' :: rest))).ok = false := by
      rw [hchunks]
      unfold first_pass_fold
      simp only [List.foldl_cons]
      cases hq : (List.foldl fp_step (fp_step { table := [], ic := 100, dc := 0, ok := true }
          ((line ++ '\n' :: rest).take 80)) (fgets_chunks_go m ((line ++ '\n' :: rest).drop 80))).ok with
      | false => rfl
      | true =>
        exfalso
        have h2 := fp_fold_ok_mono _ _ hq
        unfold fp_step at h2
        rw [htoolong] at h2
        simp at h2
    rw [(first_pass_on_table_fields _).2.2, this]
  · intro line hnl hlen
    have hchunks : fgets_chunks (line ++ ['\n']) = [line ++ ['\n']] := by
      obtain ⟨m, hm⟩ : ∃ m, (line ++ ['\n']).length = m + 1 := ⟨line.length, by simp⟩
      unfold fgets_chunks
      rw [hm, fgets_chunks_go_cons _ _ (by simp),
        show (line ++ ['\n'] : Str) = line ++ '\n' :: [] from rfl,
        fgets_take_to_newline 80 line [] (by omega) hnl]
      simp [fgets_chunks_go_nil]
    refine ⟨hchunks, ?_⟩
    rcases Nat.lt_or_ge (line ++ ['\n']).length 80 with hlt | hge
    · have hd : decide ((line ++ ['\n']).length ≥ 80) = false := by
        rw [decide_eq_false_iff_not]
        omega
      unfold line_too_long
      rw [hd, Bool.false_and]
    · have hl : line.length = 79 := by simp at hge ⊢; omega
      have hget : (line ++ ['\n']).get? 79 = some '\n' := by
        rw [List.get?_append_right (by omega)]
        simp [hl]
      unfold line_too_long
      rw [hget]
      simp

/-- Witness for c7_line_length_bounds: the concrete 80-character line is
rejected, the concrete 79-character line is read whole, passes the length
check, and in fact assembles through the first pass. -/
theorem c7_line_length_bounds_witness :
    (first_pass_on_table (fgets_chunks (c7_line80 ++ '\n' :: []))).ok = false ∧
    (fgets_chunks (c7_line79 ++ ['\n']) = [c7_line79 ++ ['\n']] ∧
     line_too_long (c7_line79 ++ ['\n']) = false) ∧
    (first_pass_on_table (fgets_chunks (c7_line79 ++ ['\n']))).ok = true :=
  ⟨c7_line_length_bounds.1 c7_line80 [] (by decide) (by decide),
   c7_line_length_bounds.2 c7_line79 (by decide) (by decide),
   by decide⟩

/-- Membership after an in-place update: each node is an original or the
image of the updated one. -/
theorem update_first_mem {t : LabelTable} {name : Str} {f : LabelNode → LabelNode}
    {m : LabelNode} (hm : m ∈ update_first t name f) : m ∈ t ∨ ∃ n ∈ t, m = f n := by
  induction t with
  | nil => simp [update_first] at hm
  | cons x xs ih =>
    simp only [update_first] at hm
    by_cases hx : (x.name == name) = true
    · rw [if_pos hx] at hm
      rcases List.mem_cons.mp hm with h | h
      · exact Or.inr ⟨x, List.mem_cons_self x xs, h⟩
      · exact Or.inl (List.mem_cons_of_mem x h)
    · rw [if_neg hx] at hm
      rcases List.mem_cons.mp hm with h | h
      · exact Or.inl (h ▸ List.mem_cons_self x xs)
      · rcases ih h with h2 | ⟨n, hn, hfn⟩
        · exact Or.inl (List.mem_cons_of_mem x h2)
        · exact Or.inr ⟨n, List.mem_cons_of_mem x hn, hfn⟩

/-- A successful add_label prepends exactly the new undefined node. -/
theorem add_label_eq {t : LabelTable} {name : Str} {address : Nat} {ty : LabelType}
    {t2 : LabelTable} (h : add_label t name address ty = some t2) :
    t2 = ⟨name, address, ty, false⟩ :: t := by
  unfold add_label at h
  split at h
  · exact absurd h (by simp)
  · split at h
    · exact absurd h (by simp)
    · exact (Option.some_inj.mp h).symm

/-- Every node after a successful define_label is an original node or a
node defined at the given address whose kind is the given one or ENTRY. -/
theorem define_label_mem {t : LabelTable} {name : Str} {address : Nat} {ty : LabelType}
    {t2 : LabelTable} (h : define_label t name address ty = some t2)
    {m : LabelNode} (hm : m ∈ t2) :
    m ∈ t ∨ (m.address = address ∧ m.is_defined = true ∧ (m.type = ty ∨ m.type = LabelType.entry)) := by
  unfold define_label at h
  cases hfind : find_label t name with
  | some existing =>
    rw [hfind] at h
    by_cases hdef : existing.is_defined = true
    · simp [hdef] at h
    · simp only [hdef, Bool.false_eq_true, if_neg, if_false] at h
      rw [← Option.some_inj.mp h] at hm
      rcases update_first_mem hm with h2 | ⟨n, hn, hfn⟩
      · exact Or.inl h2
      · subst hfn
        refine Or.inr ⟨rfl, rfl, ?_⟩
        cases he : (n.type == LabelType.entry) with
        | false => left; simp [he]
        | true => right; simp only [he, if_true]; exact eq_of_beq he
  | none =>
    rw [hfind] at h
    cases hadd : add_label t name address ty with
    | none => rw [hadd] at h; exact absurd h (by simp)
    | some t3 =>
      rw [hadd] at h
      rw [add_label_eq hadd] at h
      simp only [update_first, beq_self_eq_true, if_pos] at h
      rw [← Option.some_inj.mp h] at hm
      rcases List.mem_cons.mp hm with h2 | h2
      · subst h2; exact Or.inr ⟨rfl, rfl, Or.inl rfl⟩
      · exact Or.inl h2

/-- Every node after the .extern loop is an original or EXTERNAL. -/
theorem fp_extern_loop_mem : ∀ (ops : List Str) (t : LabelTable) (m : LabelNode),
    m ∈ (fp_extern_loop ops t).2 → m ∈ t ∨ m.type = LabelType.external := by
  intro ops
  induction ops with
  | nil => intro t m hm; exact Or.inl hm
  | cons op rest ih =>
    intro t m hm
    unfold fp_extern_loop at hm
    cases hfind : find_label t op with
    | some ex =>
      rw [hfind] at hm
      by_cases hdef : ex.is_defined = true
      · simp only [hdef, if_true] at hm; exact Or.inl hm
      · simp only [hdef, Bool.false_eq_true, if_false] at hm; exact ih t m hm
    | none =>
      rw [hfind] at hm
      cases hadd : add_label t op 0 LabelType.external with
      | some t2 =>
        simp only [hadd] at hm
        rcases ih t2 m hm with h2 | h2
        · rw [add_label_eq hadd] at h2
          rcases List.mem_cons.mp h2 with h3 | h3
          · exact Or.inr (by rw [h3])
          · exact Or.inl h3
        · exact Or.inr h2
      | none => simp only [hadd] at hm; exact ih t m hm

/-- Every node after the .entry loop is an original or ENTRY. -/
theorem fp_entry_loop_mem : ∀ (ops : List Str) (t : LabelTable) (m : LabelNode),
    m ∈ fp_entry_loop ops t → m ∈ t ∨ m.type = LabelType.entry := by
  intro ops
  induction ops with
  | nil => intro t m hm; exact Or.inl hm
  | cons op rest ih =>
    intro t m hm
    unfold fp_entry_loop at hm
    have step : ∀ t2 : LabelTable,
        (∀ x ∈ t2, x ∈ t ∨ x.type = LabelType.entry) →
        m ∈ fp_entry_loop rest t2 → m ∈ t ∨ m.type = LabelType.entry := by
      intro t2 hsub hmem
      rcases ih t2 m hmem with h2 | h2
      · exact hsub m h2
      · exact Or.inr h2
    revert hm
    cases hfind : find_label t op with
    | some en =>
      by_cases hdef : en.is_defined = true
      · by_cases hty : (en.type == LabelType.data) = true
        · simp only [hdef, hty, if_pos, if_true]
          exact step t (fun x hx => Or.inl hx)
        · simp only [hdef, hty, if_true, Bool.false_eq_true, if_false]
          refine step _ (fun x hx => ?_)
          rcases update_first_mem hx with h2 | ⟨n, _, hfn⟩
          · exact Or.inl h2
          · exact Or.inr (by rw [hfn])
      · simp only [hdef, Bool.false_eq_true, if_false]
        refine step _ (fun x hx => ?_)
        rcases update_first_mem hx with h2 | ⟨n, _, hfn⟩
        · exact Or.inl h2
        · exact Or.inr (by rw [hfn])
    | none =>
      cases hadd : add_label t op 0 LabelType.entry with
      | some t3 =>
        refine step _ (fun x hx => ?_)
        rw [add_label_eq hadd] at hx
        rcases List.mem_cons.mp hx with h3 | h3
        · exact Or.inr (by rw [h3])
        · exact Or.inl h3
      | none => exact step t (fun x hx => Or.inl hx)

/-- Defining a data label at the current DC preserves the bound for any DC
advance. -/
theorem define_data_inv {t t2 : LabelTable} {lab : Str} {dc k : Nat}
    (hdef : define_label t lab dc LabelType.data = some t2)
    (hinv : ∀ n ∈ t, n.type = LabelType.data → n.is_defined = true ∧ n.address ≤ dc) :
    ∀ n ∈ t2, n.type = LabelType.data → n.is_defined = true ∧ n.address ≤ dc + k := by
  intro n hn hd
  rcases define_label_mem hdef hn with hmem | ⟨ha, hdf, _⟩
  · obtain ⟨h1, h2⟩ := hinv n hmem hd
    exact ⟨h1, by omega⟩
  · exact ⟨hdf, by omega⟩

/-- process_line keeps every data node defined with an address bounded by
the running DC (whether the line succeeds or fails). -/
theorem process_line_inv (line : Str) (t : LabelTable) (ic dc : Nat)
    (hinv : ∀ n ∈ t, n.type = LabelType.data → n.is_defined = true ∧ n.address ≤ dc) :
    ∀ n ∈ (process_line line t ic dc).2.1, n.type = LabelType.data →
      n.is_defined = true ∧ n.address ≤ (process_line line t ic dc).2.2.2 := by
  have hmono : ∀ (k : Nat), ∀ n ∈ t, n.type = LabelType.data →
      n.is_defined = true ∧ n.address ≤ dc + k := by
    intro k n hn hd
    obtain ⟨h1, h2⟩ := hinv n hn hd
    exact ⟨h1, by omega⟩
  have hextern : ∀ (ops : List Str), ∀ n ∈ (fp_extern_loop ops t).2,
      n.type = LabelType.data → n.is_defined = true ∧ n.address ≤ dc := by
    intro ops n hn hd
    rcases fp_extern_loop_mem ops t n hn with h2 | h2
    · exact hinv n h2 hd
    · rw [hd] at h2; exact absurd h2 (by simp)
  have hentry : ∀ (ops : List Str), ∀ n ∈ fp_entry_loop ops t,
      n.type = LabelType.data → n.is_defined = true ∧ n.address ≤ dc := by
    intro ops n hn hd
    rcases fp_entry_loop_mem ops t n hn with h2 | h2
    · exact hinv n h2 hd
    · rw [hd] at h2; exact absurd h2 (by simp)
  have hcode : ∀ (lab : Str) (t2 : LabelTable),
      define_label t lab ic LabelType.code = some t2 →
      ∀ n ∈ t2, n.type = LabelType.data → n.is_defined = true ∧ n.address ≤ dc := by
    intro lab t2 hdl n hn hd
    rcases define_label_mem hdl hn with h2 | ⟨_, _, hty⟩
    · exact hinv n h2 hd
    · rw [hd] at hty
      rcases hty with h3 | h3 <;> exact absurd h3 (by simp)
  unfold process_line
  split
  · exact hinv
  · split
    · exact hinv
    · split
      · exact hinv
      · rename_i parts _
        split
        · -- .data
          split
          · exact hinv
          · split
            · split
              · exact hinv
              · rename_i t2 hdl
                exact define_data_inv hdl hinv
            · exact hmono _
        · split
          · -- .string
            split
            · split
              · exact hinv
              · split
                · exact hinv
                · split
                  · split
                    · exact hinv
                    · rename_i t2 hdl
                      exact define_data_inv hdl hinv
                  · exact hmono _
            · exact hinv
          · split
            · -- .mat
              split
              · exact hinv
              · split
                · exact hinv
                · split
                  · exact hinv
                  · split
                    · exact hinv
                    · split
                      · split
                        · exact hinv
                        · rename_i t2 hdl
                          exact define_data_inv hdl hinv
                      · exact hmono _
            · split
              · -- .extern
                split
                rename_i okk t2 hloop
                intro n hn hd
                exact hextern parts.operands n (by rw [hloop]; exact hn) hd
              · split
                · -- .entry
                  exact hentry parts.operands
                · -- instruction
                  split
                  · -- a label is present: the define_label result splits first
                    split
                    · dsimp only
                      split
                      · exact hinv
                      · exact hinv
                    · rename_i t2 hdl
                      dsimp only
                      split
                      · exact hinv
                      · exact hcode _ _ hdl
                  · -- no label
                    dsimp only
                    split
                    · exact hinv
                    · exact hinv

/-- The first-pass loop maintains: every data node is defined with address
at most the running DC. -/
theorem fp_fold_inv (lines : List Str) (st : FPState)
    (h : ∀ n ∈ st.table, n.type = LabelType.data → n.is_defined = true ∧ n.address ≤ st.dc) :
    ∀ n ∈ (lines.foldl fp_step st).table, n.type = LabelType.data →
      n.is_defined = true ∧ n.address ≤ (lines.foldl fp_step st).dc := by
  induction lines generalizing st with
  | nil => exact h
  | cons l rest ih =>
    simp only [List.foldl_cons]
    apply ih
    unfold fp_step
    split
    · exact h
    · split
      rename_i okk t2 ic2 dc2 hp
      have h2 := process_line_inv l st.table st.ic st.dc h
      rw [hp] at h2
      exact h2

/-- Rebasing pins every data node into [IC, IC + DC]. -/
theorem rebase_inv (t : LabelTable) (ic dc : Nat)
    (h : ∀ n ∈ t, n.type = LabelType.data → n.is_defined = true ∧ n.address ≤ dc) :
    ∀ n ∈ rebase_data_labels t ic, n.type = LabelType.data →
      n.is_defined = true ∧ ic ≤ n.address ∧ n.address ≤ ic + dc := by
  intro n hn hd
  rcases List.mem_map.mp hn with ⟨x, hx, hmap⟩
  by_cases hc : (x.type == LabelType.data && x.is_defined) = true
  · rw [if_pos hc] at hmap
    rw [← hmap] at hd ⊢
    obtain ⟨h1, h2⟩ := h x hx hd
    refine ⟨h1, ?_, ?_⟩ <;> (dsimp only; omega)
  · rw [if_neg hc] at hmap
    rw [← hmap] at hd ⊢
    obtain ⟨h1, h2⟩ := h x hx hd
    exfalso
    exact hc (by simp [hd, h1])

/-- C5 (amended): after an error-free first pass every data symbol's address
has been shifted by exactly IC_final (the final table is the rebasing of the
pre-rebase table), and consequently every data symbol is defined with
IC_final ≤ address ≤ IC_final + DC_final.  The upper bound is inclusive:
a data label defined by a `.data` directive with no operands sits exactly at
IC_final + DC_final. -/
theorem c5_data_rebasing (lines : List Str)
    (h : (first_pass_on_table lines).ok = true) :
    (first_pass_on_table lines).table =
      rebase_data_labels (first_pass_fold lines).table (first_pass_fold lines).ic ∧
    ∀ n ∈ (first_pass_on_table lines).table, n.type = LabelType.data →
      n.is_defined = true ∧
      (first_pass_on_table lines).ic ≤ n.address ∧
      n.address ≤ (first_pass_on_table lines).ic + (first_pass_on_table lines).dc := by
  have hok : (first_pass_fold lines).ok = true := by
    rw [← (first_pass_on_table_fields lines).2.2]
    exact h
  have htbl : (first_pass_on_table lines).table =
      rebase_data_labels (first_pass_fold lines).table (first_pass_fold lines).ic := by
    simp [first_pass_on_table, hok]
  refine ⟨htbl, ?_⟩
  rw [htbl, (first_pass_on_table_fields lines).1, (first_pass_on_table_fields lines).2.1]
  unfold first_pass_fold
  exact rebase_inv _ _ _ (fp_fold_inv lines _ (by intro n hn; simp at hn))

/-- Witness for c5_data_rebasing: the scenario-B style program; its data
label LEN is shifted to 105 = IC_final + 0 and lies in [104, 106]. -/
theorem c5_data_rebasing_witness :
    (first_pass_on_table c5_witness_lines).table =
      rebase_data_labels (first_pass_fold c5_witness_lines).table
        (first_pass_fold c5_witness_lines).ic ∧
    ∀ n ∈ (first_pass_on_table c5_witness_lines).table, n.type = LabelType.data →
      n.is_defined = true ∧
      (first_pass_on_table c5_witness_lines).ic ≤ n.address ∧
      n.address ≤ (first_pass_on_table c5_witness_lines).ic +
        (first_pass_on_table c5_witness_lines).dc :=
  c5_data_rebasing c5_witness_lines (by decide)

/-- sp_instr_step never clears the error flag. -/
theorem sp_instr_step_err_mono (table : LabelTable) (st : SPInstrState) (l : Str)
    (h : (sp_instr_step table st l).has_errors = false) : st.has_errors = false := by
  unfold sp_instr_step at h
  split at h
  · simp at h
  · split at h
    · exact h
    · split at h
      · exact h
      · split at h
        · exact h
        · split at h
          · exact h
          · split at h
            · exact h
            · simp at h

/-- The error flag of the instruction-encoding loop is monotone. -/
theorem sp_instr_fold_err_mono (lines : List Str) (table : LabelTable) (st : SPInstrState)
    (h : (lines.foldl (sp_instr_step table) st).has_errors = false) : st.has_errors = false := by
  induction lines generalizing st with
  | nil => exact h
  | cons l rest ih =>
    simp only [List.foldl_cons] at h
    exact sp_instr_step_err_mono table st l (ih _ h)

/-- No opcode name starts with a semicolon. -/
theorem is_valid_opcode_semicolon (t : Str) : is_valid_opcode (';' :: t) = false := by
  simp [is_valid_opcode, instruction_table, String.toList]

/-- No directive name starts with a semicolon. -/
theorem is_valid_directive_semicolon (t : Str) : is_valid_directive (';' :: t) = false := by
  simp [is_valid_directive, String.toList]

/-- parse_line rejects a line starting with a semicolon (an invalid label
before a colon, or an invalid command token). -/
theorem parse_line_semicolon (r : Str) : parse_line (';' :: r) = none := by
  unfold parse_line
  rw [if_neg (by simp)]
  by_cases hlen : (';' :: r : Str).length ≥ 81
  · rw [if_pos hlen]
  · rw [if_neg hlen]
    have hsp : strspn_model (';' :: r) WHITESPACE_CHARS = 0 := by
      simp only [strspn_model, List.takeWhile_cons,
        show (WHITESPACE_CHARS.contains ';') = false from rfl, Bool.false_eq_true, if_false,
        List.length_nil]
    rw [if_neg (by rw [hsp]; simp)]
    rw [if_neg (by simp [strcspn_control_chars_vacuous])]
    have hds : dropSpTab (';' :: r) = ';' :: r := by simp [dropSpTab]
    have hlab : handle_label_extraction (';' :: r) = none ∨
        handle_label_extraction (';' :: r) = some (none, ';' :: r) := by
      unfold handle_label_extraction
      cases hb : breakAt ':' (';' :: r) with
      | none => exact Or.inr rfl
      | some pr =>
        left
        rcases pr with ⟨before, after⟩
        have hbefore : ∃ pre, before = ';' :: pre := by
          unfold breakAt at hb
          rw [if_neg (by decide)] at hb
          cases hb2 : breakAt ':' r with
          | none => rw [hb2] at hb; exact absurd hb (by simp)
          | some pr2 =>
            rw [hb2] at hb
            exact ⟨pr2.1, by simpa using (congrArg Prod.fst (Option.some_inj.mp hb)).symm⟩
        obtain ⟨pre, hpre⟩ := hbefore
        have hex : extract_label (';' :: r) = none := by
          unfold extract_label
          simp only [hds]
          simp only [hb, hpre]
          by_cases h0 : ((';' :: pre : Str).length == 0) = true
          · rw [if_pos h0]
          · rw [if_neg h0]
            by_cases h30 : (';' :: pre : Str).length > 30
            · rw [if_pos h30]
            · rw [if_neg h30]
              rw [if_neg (by simp [is_valid_label])]
        rw [hex]
    have hcmd : extract_command (';' :: r) = none := by
      unfold extract_command
      simp only [hds]
      have hdw : (';' :: r).dropWhile is_ws4 = ';' :: r := by
        simp [List.dropWhile_cons, is_ws4]
      rw [hdw]
      simp only [List.takeWhile_cons, show is_ws4 ';' = false from rfl, Bool.not_false, if_true]
      rw [if_neg (by simp)]
      rw [if_pos (by
        simp [is_valid_opcode_semicolon, is_valid_directive_semicolon])]
    rcases hlab with hlab | hlab
    · rw [hlab]
    · rw [hlab]
      simp only [hds, List.isEmpty_cons, Bool.false_eq_true, if_false]
      rw [hcmd]

/-- A parsed command is a valid opcode or directive (extract_command
validated it). -/
theorem parse_line_command_valid {x : Str} {parts : SeparateLine}
    (h : parse_line x = some parts) {cmd : Str} (hc : parts.command = some cmd) :
    is_valid_opcode cmd = true ∨ is_valid_directive cmd = true := by
  unfold parse_line at h
  split at h
  · exact absurd h (by simp)
  · split at h
    · exact absurd h (by simp)
    · split at h
      · exact absurd h (by simp)
      · split at h
        · exact absurd h (by simp)
        · cases hh : handle_label_extraction x with
          | none => rw [hh] at h; exact absurd h (by simp)
          | some pr =>
            rcases pr with ⟨lab, rest⟩
            rw [hh] at h
            simp only at h
            by_cases hemp : (dropSpTab rest).isEmpty = true
            · simp only [hemp, if_true] at h
              rw [← Option.some_inj.mp h] at hc
              exact absurd hc (by simp)
            · simp only [hemp, Bool.false_eq_true, if_false] at h
              cases hcm : extract_command (dropSpTab rest) with
              | none => rw [hcm] at h; exact absurd h (by simp)
              | some cmd2 =>
                rw [hcm] at h
                simp only at h
                rw [← Option.some_inj.mp h] at hc
                simp only at hc
                rw [← Option.some_inj.mp hc]
                unfold extract_command at hcm
                dsimp only at hcm
                split at hcm
                · exact absurd hcm (by simp)
                · split at hcm
                  · exact absurd hcm (by simp)
                  · rename_i hval
                    rw [Option.some_inj.mp hcm] at hval
                    by_cases ho : is_valid_opcode cmd2 = true
                    · exact Or.inl ho
                    · by_cases hd : is_valid_directive cmd2 = true
                      · exact Or.inr hd
                      · exact absurd
                          (by simp [ho, hd] :
                            (!is_valid_opcode cmd2 && !is_valid_directive cmd2) = true) hval

/-- Opcode mnemonics never start with a dot. -/
theorem is_valid_opcode_head_ne_dot {s : Str} (h : is_valid_opcode s = true) :
    s.head? ≠ some '.' := by
  simp only [is_valid_opcode, instruction_table, List.any_cons, List.any_nil, Bool.or_eq_true,
    beq_iff_eq, Bool.or_false] at h
  rcases h with h|h|h|h|h|h|h|h|h|h|h|h|h|h|h|h <;> (rw [← h]; decide)

/-- The five directive names. -/
theorem is_valid_directive_cases {s : Str} (h : is_valid_directive s = true) :
    s = ".data".toList ∨ s = ".string".toList ∨ s = ".mat".toList ∨
    s = ".extern".toList ∨ s = ".entry".toList := by
  simp only [is_valid_directive, Bool.or_eq_true, beq_iff_eq] at h
  tauto

/-- Successful operand classification yields one of the four mode masks. -/
theorem get_operand_mode_values {op : Str} {m : Nat} (h : get_operand_mode op = some m) :
    m = IMMEDIATE ∨ m = DIRECT ∨ m = MATRIX_ACCESS ∨ m = REGISTER := by
  unfold get_operand_mode at h
  split at h
  · exact absurd h (by simp)
  · split at h
    · split at h
      · exact Or.inl (Option.some_inj.mp h).symm
      · exact absurd h (by simp)
    · split at h
      · split at h
        · split at h
          · exact Or.inr (Or.inr (Or.inr (Option.some_inj.mp h).symm))
          · exact absurd h (by simp)
        · exact absurd h (by simp)
      · split at h
        · split at h
          · exact absurd h (by simp)
          · split at h
            · split at h
              · exact Or.inl (Option.some_inj.mp h).symm
              · exact absurd h (by simp)
            · split at h
              · exact Or.inl (Option.some_inj.mp h).symm
              · exact absurd h (by simp)
        · split at h
          · split at h
            · exact Or.inr (Or.inr (Or.inl (Option.some_inj.mp h).symm))
            · exact absurd h (by simp)
          · split at h
            · exact Or.inr (Or.inl (Option.some_inj.mp h).symm)
            · exact absurd h (by simp)

/-- On the four mode masks, the matrix ordinal test mirrors the mask test. -/
theorem convert_mode_two {mm : Nat}
    (h : mm = IMMEDIATE ∨ mm = DIRECT ∨ mm = MATRIX_ACCESS ∨ mm = REGISTER) :
    (convert_to_addressing_mode mm == 2) = (mm == MATRIX_ACCESS) := by
  rcases h with rfl | rfl | rfl | rfl <;> rfl

/-- On the four mode masks, the register ordinal test mirrors the mask test. -/
theorem convert_mode_three {mm : Nat}
    (h : mm = IMMEDIATE ∨ mm = DIRECT ∨ mm = MATRIX_ACCESS ∨ mm = REGISTER) :
    (convert_to_addressing_mode mm == 3) = (mm == REGISTER) := by
  rcases h with rfl | rfl | rfl | rfl <;> rfl

/-- The number of machine words emitted by a successful encode_instruction
equals the first pass's estimate_ic_words for the same parsed line. -/
theorem encode_words_length {parts : SeparateLine} {table : LabelTable} {ic : Nat}
    {ext : List (Str × Nat)} {ws : List MachineWord} {ext2 : List (Str × Nat)}
    (h : encode_instruction parts table ic ext = some (ws, ext2)) :
    ws.length = estimate_ic_words parts := by
  unfold encode_instruction at h
  cases hcmd : parts.command with
  | none => rw [hcmd] at h; exact absurd h (by simp)
  | some cmd =>
    rw [hcmd] at h
    simp only at h
    cases hinst : get_instruction cmd with
    | none => rw [hinst] at h; exact absurd h (by simp)
    | some inst =>
      rw [hinst] at h
      simp only at h
      by_cases h0 : (inst.num_of_operands == 0) = true
      · simp only [h0, if_true] at h
        have hws : ws = [⟨create_instruction_word inst.opcode 0 0 ARE_ABSOLUTE, ARE_ABSOLUTE, ic⟩] :=
          (congrArg Prod.fst (Option.some_inj.mp h)).symm
        rw [hws]
        simp [estimate_ic_words, hcmd, hinst, h0]
      · simp only [h0, Bool.false_eq_true, if_false] at h
        by_cases h1 : (inst.num_of_operands == 1) = true
        · simp only [h1, if_true] at h
          cases hget0 : parts.operands.get? 0 with
          | none => rw [hget0] at h; exact absurd h (by simp)
          | some op0 =>
            rw [hget0] at h
            simp only [List.get?_eq_getElem?] at hget0
            simp only at h
            cases hm : get_operand_mode op0 with
            | none => rw [hm] at h; exact absurd h (by simp)
            | some dmask =>
              rw [hm] at h
              simp only at h
              have hv := get_operand_mode_values hm
              rw [convert_mode_two hv] at h
              by_cases hmat : (dmask == MATRIX_ACCESS) = true
              · simp only [hmat, if_true] at h
                cases henc : encode_matrix_operand op0 table (ic + 1) ext with
                | none => rw [henc] at h; exact absurd h (by simp)
                | some tri =>
                  rw [henc] at h
                  rcases tri with ⟨m0, m1, e3⟩
                  simp only at h
                  injection Option.some_inj.mp h with hws hext
                  rw [← hws]
                  simp [estimate_ic_words, hcmd, hinst, h0, h1, operand_mode_at, hget0, hm, hmat]
              · simp only [hmat, Bool.false_eq_true, if_false] at h
                cases henc : encode_operand op0 table (convert_to_addressing_mode dmask) (ic + 1) ext with
                | none => rw [henc] at h; exact absurd h (by simp)
                | some pr =>
                  rw [henc] at h
                  rcases pr with ⟨w1, e3⟩
                  simp only at h
                  injection Option.some_inj.mp h with hws hext
                  rw [← hws]
                  simp [estimate_ic_words, hcmd, hinst, h0, h1, operand_mode_at, hget0, hm, hmat]
        · simp only [h1, Bool.false_eq_true, if_false] at h
          by_cases h2 : (inst.num_of_operands == 2) = true
          · simp only [h2, if_true] at h
            cases hget0 : parts.operands.get? 0 with
            | none => rw [hget0] at h; exact absurd h (by simp)
            | some op0 =>
              rw [hget0] at h
              simp only [List.get?_eq_getElem?] at hget0
              cases hget1 : parts.operands.get? 1 with
              | none => rw [hget1] at h; exact absurd h (by simp)
              | some op1 =>
                rw [hget1] at h
                simp only [List.get?_eq_getElem?] at hget1
                simp only at h
                cases hmd : get_operand_mode op1 with
                | none => rw [hmd] at h; exact absurd h (by simp)
                | some dmask =>
                  rw [hmd] at h
                  cases hms : get_operand_mode op0 with
                  | none => rw [hms] at h; exact absurd h (by simp)
                  | some smask =>
                    rw [hms] at h
                    simp only at h
                    have hvd := get_operand_mode_values hmd
                    have hvs := get_operand_mode_values hms
                    rw [convert_mode_three hvs, convert_mode_three hvd] at h
                    by_cases hrr : ((smask == REGISTER) && (dmask == REGISTER)) = true
                    · rw [Bool.and_eq_true] at hrr
                      simp only [hrr.1, hrr.2, Bool.and_self, if_true] at h
                      cases hr0 : get_register_number op0 with
                      | none => rw [hr0] at h; exact absurd h (by simp)
                      | some sr =>
                        rw [hr0] at h
                        cases hr1 : get_register_number op1 with
                        | none => rw [hr1] at h; exact absurd h (by simp)
                        | some dr =>
                          rw [hr1] at h
                          simp only at h
                          injection Option.some_inj.mp h with hws hext
                          rw [← hws]
                          simp [estimate_ic_words, hcmd, hinst, h0, h1, h2, operand_mode_at,
                            hget0, hget1, hms, hmd, hrr.1, hrr.2]
                    · rw [Bool.and_eq_true] at hrr
                      push_neg at hrr
                      have hcond : ((smask == REGISTER) && (dmask == REGISTER)) = false := by
                        by_cases hs : (smask == REGISTER) = true
                        · simp [hs, hrr hs]
                        · simp [Bool.not_eq_true _ ▸ hs,
                            show (smask == REGISTER) = false from Bool.not_eq_true _ ▸ hs]
                      rw [hcond] at h
                      simp only [Bool.false_eq_true, if_false] at h
                      rw [convert_mode_two hvs] at h
                      -- source operand words
                      by_cases hsm : (smask == MATRIX_ACCESS) = true
                      · simp only [hsm, if_true] at h
                        cases henc : encode_matrix_operand op0 table (ic + 1) ext with
                        | none => rw [henc] at h; exact absurd h (by simp)
                        | some tri =>
                          rw [henc] at h
                          rcases tri with ⟨m0, m1, e3⟩
                          simp only at h
                          rw [convert_mode_two hvd] at h
                          by_cases hdm : (dmask == MATRIX_ACCESS) = true
                          · simp only [hdm, if_true] at h
                            cases henc2 : encode_matrix_operand op1 table (ic + 1 + [m0, m1].length) e3 with
                            | none => rw [henc2] at h; exact absurd h (by simp)
                            | some tri2 =>
                              rw [henc2] at h
                              rcases tri2 with ⟨n0, n1, e4⟩
                              simp only at h
                              injection Option.some_inj.mp h with hws hext
                              rw [← hws]
                              simp [estimate_ic_words, hcmd, hinst, h0, h1, h2, operand_mode_at,
                                hget0, hget1, hms, hmd, hcond, hsm, hdm]
                          · simp only [hdm, Bool.false_eq_true, if_false] at h
                            cases henc2 : encode_operand op1 table (convert_to_addressing_mode dmask)
                                (ic + 1 + [m0, m1].length) e3 with
                            | none => rw [henc2] at h; exact absurd h (by simp)
                            | some pr2 =>
                              rw [henc2] at h
                              rcases pr2 with ⟨w1, e4⟩
                              simp only at h
                              injection Option.some_inj.mp h with hws hext
                              rw [← hws]
                              simp [estimate_ic_words, hcmd, hinst, h0, h1, h2, operand_mode_at,
                                hget0, hget1, hms, hmd, hcond, hsm, hdm]
                      · simp only [hsm, Bool.false_eq_true, if_false] at h
                        cases henc : encode_operand op0 table (convert_to_addressing_mode smask)
                            (ic + 1) ext with
                        | none => rw [henc] at h; exact absurd h (by simp)
                        | some pr =>
                          rw [henc] at h
                          rcases pr with ⟨w1, e3⟩
                          simp only at h
                          rw [convert_mode_two hvd] at h
                          by_cases hdm : (dmask == MATRIX_ACCESS) = true
                          · simp only [hdm, if_true] at h
                            cases henc2 : encode_matrix_operand op1 table (ic + 1 + [w1].length) e3 with
                            | none => rw [henc2] at h; exact absurd h (by simp)
                            | some tri2 =>
                              rw [henc2] at h
                              rcases tri2 with ⟨n0, n1, e4⟩
                              simp only at h
                              injection Option.some_inj.mp h with hws hext
                              rw [← hws]
                              simp [estimate_ic_words, hcmd, hinst, h0, h1, h2, operand_mode_at,
                                hget0, hget1, hms, hmd, hcond, hsm, hdm]
                          · simp only [hdm, Bool.false_eq_true, if_false] at h
                            cases henc2 : encode_operand op1 table (convert_to_addressing_mode dmask)
                                (ic + 1 + [w1].length) e3 with
                            | none => rw [henc2] at h; exact absurd h (by simp)
                            | some pr2 =>
                              rw [henc2] at h
                              rcases pr2 with ⟨w2, e4⟩
                              simp only at h
                              injection Option.some_inj.mp h with hws hext
                              rw [← hws]
                              simp [estimate_ic_words, hcmd, hinst, h0, h1, h2, operand_mode_at,
                                hget0, hget1, hms, hmd, hcond, hsm, hdm]
          · simp only [h2, Bool.false_eq_true, if_false] at h
            exact absurd h (by simp)

/-- parse_line rejects the empty string. -/
theorem parse_line_nil : parse_line [] = none := rfl

/-- parse_line rejects a bare newline (an all-whitespace line). -/
theorem parse_line_newline : parse_line ['\n'] = none := by decide

/-- A quadruple equation read componentwise (first and third component). -/
theorem quad_eq {a b : Bool} {t t2 : LabelTable} {i i2 d d2 : Nat}
    (h : ((a, t, i, d) : Bool × LabelTable × Nat × Nat) = (b, t2, i2, d2)) :
    b = a ∧ i2 = i := by
  injection h with h1 h2
  injection h2 with _ h3
  injection h3 with h4 _
  exact ⟨h1.symm, h4.symm⟩

/-- An element followed by at least one more element survives dropLast. -/
theorem mem_dropLast_append (xs ys : Str) (c : Char) (h : ys ≠ []) :
    c ∈ (xs ++ c :: ys).dropLast := by
  induction xs with
  | nil =>
    cases ys with
    | nil => exact absurd rfl h
    | cons y ys2 => simp [List.dropLast]
  | cons x xs ih =>
    have hne : xs ++ c :: ys ≠ [] := by simp
    rw [List.cons_append, List.dropLast_cons_of_ne_nil hne]
    exact List.mem_cons_of_mem x ih

/-- dropSpTab only removes a prefix. -/
theorem dropSpTab_suffix (l : Str) : ∃ pre, l = pre ++ dropSpTab l := by
  induction l with
  | nil => exact ⟨[], rfl⟩
  | cons c cs ih =>
    by_cases h : (c == ' ' || c == '\t') = true
    · obtain ⟨pre, hp⟩ := ih
      have hd : dropSpTab (c :: cs) = dropSpTab cs := by
        simp [dropSpTab, List.dropWhile_cons, h]
      exact ⟨c :: pre, by rw [hd, List.cons_append, ← hp]⟩
    · have hd : dropSpTab (c :: cs) = c :: cs := by
        simp only [dropSpTab, List.dropWhile_cons]
        rw [if_neg (by simpa using h)]
      exact ⟨[], by rw [hd]; rfl⟩

/-- fpPre when the stripped line does not start with a carriage return. -/
theorem fpPre_of_ne_cr {l : Str} {c : Char} {rest : Str} (hds : dropSpTab l = c :: rest)
    (h : c ≠ '\r') : fpPre l = c :: rest := by
  unfold fpPre
  rw [hds]
  split
  · rename_i r heq
    injection heq with h1 _
    exact absurd h1 h
  · rfl

/-- fpPre when the stripped line starts with a carriage return. -/
theorem fpPre_of_cr {l : Str} {rest : Str} (hds : dropSpTab l = '\r' :: rest) :
    fpPre l = rest := by
  unfold fpPre
  rw [hds]
  rfl

/-- fpPre of an all-blank line. -/
theorem fpPre_of_nil {l : Str} (hds : dropSpTab l = []) : fpPre l = [] := by
  unfold fpPre
  rw [hds]

/-- Core of the per-line simulation: when both passes reach the parsing
stage on a line (first pass after its pointer advance, second pass on the
raw line) and the line parses the same both ways, a successful first-pass
step advances IC by exactly the number of words the error-free second-pass
step appends. -/
theorem sp_fp_main {table : LabelTable} {fpSt : FPState} {spSt : SPInstrState} {l : Str}
    {c0 : Char} {r0 : Str} {c1 : Char} {r1 : Str}
    (hds : dropSpTab l = c0 :: r0)
    (hc0 : (c0 == '\n' || c0 == ';') = false)
    (hfp : fpPre l = c1 :: r1)
    (hc1 : (c1 == '\n' || c1 == ';') = false)
    (hag : parse_line (fpPre l) = parse_line l)
    (hic : spSt.current_ic = fpSt.ic)
    (hlen : fpSt.ic = 100 + spSt.emitted.length)
    (hlong : line_too_long l = false)
    {okk : Bool} {t2 : LabelTable} {ic2 dc2 : Nat}
    (hpl : process_line l fpSt.table fpSt.ic fpSt.dc = (okk, t2, ic2, dc2))
    (hokk : okk = true)
    (hsp : (sp_instr_step table spSt l).has_errors = false) :
    (sp_instr_step table spSt l).current_ic = ic2 ∧
    ic2 = 100 + (sp_instr_step table spSt l).emitted.length := by
  unfold sp_instr_step at hsp ⊢
  rw [hlong] at hsp ⊢
  simp only [Bool.false_eq_true, if_false] at hsp ⊢
  rw [hds] at hsp ⊢
  simp only [hc0, Bool.false_eq_true, if_false] at hsp ⊢
  rw [← hag, hfp] at hsp ⊢
  unfold process_line at hpl
  rw [hfp] at hpl
  simp only [hc1, Bool.false_eq_true, if_false] at hpl
  cases hP : parse_line (c1 :: r1) with
  | none =>
    rw [hP] at hpl
    simp only at hpl
    rcases quad_eq hpl with ⟨hq1, _⟩
    rw [hokk] at hq1
    exact absurd hq1 (by simp)
  | some parts =>
    rw [hP] at hpl hsp
    simp only at hpl hsp ⊢
    by_cases hd1 : (parts.command == some ".data".toList) = true
    · have hcmd : parts.command = some ".data".toList := by simpa using hd1
      have hic2 : ic2 = fpSt.ic := by
        rw [if_pos hd1] at hpl
        repeat' split at hpl
        all_goals exact (quad_eq hpl).2
      have hdot : (match parts.command with
                   | some cmd => cmd.head? == some '.'
                   | none => false) = true := by rw [hcmd]; decide
      rw [if_pos hdot] at hsp ⊢
      exact ⟨hic.trans hic2.symm, hic2 ▸ hlen⟩
    · rw [if_neg hd1] at hpl
      by_cases hd2 : (parts.command == some ".string".toList) = true
      · have hcmd : parts.command = some ".string".toList := by simpa using hd2
        have hic2 : ic2 = fpSt.ic := by
          rw [if_pos hd2] at hpl
          repeat' split at hpl
          all_goals exact (quad_eq hpl).2
        have hdot : (match parts.command with
                     | some cmd => cmd.head? == some '.'
                     | none => false) = true := by rw [hcmd]; decide
        rw [if_pos hdot] at hsp ⊢
        exact ⟨hic.trans hic2.symm, hic2 ▸ hlen⟩
      · rw [if_neg hd2] at hpl
        by_cases hd3 : (parts.command == some ".mat".toList) = true
        · have hcmd : parts.command = some ".mat".toList := by simpa using hd3
          have hic2 : ic2 = fpSt.ic := by
            rw [if_pos hd3] at hpl
            repeat' split at hpl
            all_goals exact (quad_eq hpl).2
          have hdot : (match parts.command with
                       | some cmd => cmd.head? == some '.'
                       | none => false) = true := by rw [hcmd]; decide
          rw [if_pos hdot] at hsp ⊢
          exact ⟨hic.trans hic2.symm, hic2 ▸ hlen⟩
        · rw [if_neg hd3] at hpl
          by_cases hd4 : (parts.command == some ".extern".toList) = true
          · have hcmd : parts.command = some ".extern".toList := by simpa using hd4
            have hic2 : ic2 = fpSt.ic := by
              rw [if_pos hd4] at hpl
              repeat' split at hpl
              all_goals exact (quad_eq hpl).2
            have hdot : (match parts.command with
                         | some cmd => cmd.head? == some '.'
                         | none => false) = true := by rw [hcmd]; decide
            rw [if_pos hdot] at hsp ⊢
            exact ⟨hic.trans hic2.symm, hic2 ▸ hlen⟩
          · rw [if_neg hd4] at hpl
            by_cases hd5 : (parts.command == some ".entry".toList) = true
            · have hcmd : parts.command = some ".entry".toList := by simpa using hd5
              have hic2 : ic2 = fpSt.ic := by
                rw [if_pos hd5] at hpl
                repeat' split at hpl
                all_goals exact (quad_eq hpl).2
              have hdot : (match parts.command with
                           | some cmd => cmd.head? == some '.'
                           | none => false) = true := by rw [hcmd]; decide
              rw [if_pos hdot] at hsp ⊢
              exact ⟨hic.trans hic2.symm, hic2 ▸ hlen⟩
            · rw [if_neg hd5] at hpl
              by_cases hw0 : (estimate_ic_words parts == 0) = true
              · rw [if_pos hw0] at hpl
                rcases quad_eq hpl with ⟨hq1, _⟩
                rw [hokk] at hq1
                exact absurd hq1 (by simp)
              · rw [if_neg hw0] at hpl
                have hic2 : ic2 = fpSt.ic + estimate_ic_words parts := by
                  repeat' split at hpl
                  all_goals
                    rcases quad_eq hpl with ⟨hq1, hq2⟩
                  all_goals
                    first
                      | exact hq2
                      | (rw [hokk] at hq1; exact absurd hq1 (by simp))
                have hcs : ∃ cmd, parts.command = some cmd := by
                  cases hc : parts.command with
                  | none => exact absurd (by simp [estimate_ic_words, hc]) hw0
                  | some cmd => exact ⟨cmd, rfl⟩
                obtain ⟨cmd, hcmd⟩ := hcs
                have hop : is_valid_opcode cmd = true := by
                  rcases parse_line_command_valid hP hcmd with h | h
                  · exact h
                  · exfalso
                    rcases is_valid_directive_cases h with h5 | h5 | h5 | h5 | h5
                    · exact hd1 (by rw [hcmd, h5]; simp)
                    · exact hd2 (by rw [hcmd, h5]; simp)
                    · exact hd3 (by rw [hcmd, h5]; simp)
                    · exact hd4 (by rw [hcmd, h5]; simp)
                    · exact hd5 (by rw [hcmd, h5]; simp)
                have hdot : (match parts.command with
                             | some cmd2 => cmd2.head? == some '.'
                             | none => false) = false := by
                  rw [hcmd]
                  simp only [beq_eq_false_iff_ne, ne_eq]
                  exact is_valid_opcode_head_ne_dot hop
                rw [hdot] at hsp ⊢
                simp only [Bool.false_eq_true, if_false] at hsp ⊢
                cases hE : encode_instruction parts table spSt.current_ic spSt.ext_list with
                | none =>
                  rw [hE] at hsp
                  simp at hsp
                | some pr =>
                  rcases pr with ⟨ws, e2⟩
                  rw [hE] at hsp
                  simp only at hsp ⊢
                  have hwl : ws.length = estimate_ic_words parts := encode_words_length hE
                  constructor
                  · rw [hic2, hwl, hic]
                  · simp only [List.length_append]
                    omega

/-- Per-line simulation of the two reading loops: on a line whose two
parses agree and whose newline (if any) is its last character, a first-pass
step that keeps ok and a second-pass step that keeps has-errors clear
preserve the linkage IC = second-pass counter = 100 + emitted words. -/
theorem sp_fp_step (table : LabelTable) (fpSt : FPState) (spSt : SPInstrState) (l : Str)
    (hag : parse_line (fpPre l) = parse_line l)
    (hwf : '\n' ∉ l.dropLast)
    (hic : spSt.current_ic = fpSt.ic)
    (hlen : fpSt.ic = 100 + spSt.emitted.length)
    (hfok : (fp_step fpSt l).ok = true)
    (hsp : (sp_instr_step table spSt l).has_errors = false) :
    (sp_instr_step table spSt l).current_ic = (fp_step fpSt l).ic ∧
    (fp_step fpSt l).ic = 100 + (sp_instr_step table spSt l).emitted.length := by
  have hlong : line_too_long l = false := by
    by_contra hl
    rw [Bool.not_eq_false] at hl
    unfold fp_step at hfok
    rw [if_pos hl] at hfok
    simp at hfok
  have hfpstep : fp_step fpSt l =
      (match process_line l fpSt.table fpSt.ic fpSt.dc with
       | (okk, t, ic, dc) => { table := t, ic := ic, dc := dc, ok := fpSt.ok && okk }) := by
    unfold fp_step
    rw [hlong]
    simp
  rcases hpl : process_line l fpSt.table fpSt.ic fpSt.dc with ⟨okk, t2, ic2, dc2⟩
  rw [hpl] at hfpstep
  rw [hfpstep] at hfok ⊢
  simp only at hfok ⊢
  have hokk : okk = true := (Bool.and_eq_true _ _ |>.mp hfok).2
  cases hds : dropSpTab l with
  | nil =>
    have hfp : fpPre l = [] := fpPre_of_nil hds
    unfold process_line at hpl
    rw [hfp] at hpl
    rcases quad_eq hpl with ⟨_, hq2⟩
    have hspv : sp_instr_step table spSt l = spSt := by
      unfold sp_instr_step
      rw [hlong, hds]
      simp
    rw [hspv]
    exact ⟨hic.trans hq2.symm, hq2 ▸ hlen⟩
  | cons c rest =>
    by_cases hcr : c = '\r'
    · subst hcr
      have hfp : fpPre l = rest := fpPre_of_cr hds
      cases hrest : rest with
      | nil =>
        unfold process_line at hpl
        rw [hfp, hrest] at hpl
        rcases quad_eq hpl with ⟨_, hq2⟩
        have hplnone : parse_line l = none := by
          rw [← hag, hfp, hrest]
          exact parse_line_nil
        have hspv : sp_instr_step table spSt l = spSt := by
          unfold sp_instr_step
          rw [hlong, hds, hplnone]
          simp
        rw [hspv]
        exact ⟨hic.trans hq2.symm, hq2 ▸ hlen⟩
      | cons c2 r2 =>
        by_cases hc2 : (c2 == '\n' || c2 == ';') = true
        · unfold process_line at hpl
          rw [hfp, hrest] at hpl
          simp only [hc2, if_true] at hpl
          rcases quad_eq hpl with ⟨_, hq2⟩
          have hplnone : parse_line l = none := by
            rw [← hag, hfp, hrest]
            have hor : c2 = '\n' ∨ c2 = ';' := by simpa using hc2
            rcases hor with hc2' | hc2'
            · subst hc2'
              cases hr2 : r2 with
              | nil => exact parse_line_newline
              | cons a r3 =>
                exfalso
                obtain ⟨pre, hpre⟩ := dropSpTab_suffix l
                rw [hds, hrest, hr2] at hpre
                apply hwf
                rw [hpre]
                have hm := mem_dropLast_append (pre ++ ['\r']) (a :: r3) '\n' (by simp)
                simpa using hm
            · subst hc2'
              exact parse_line_semicolon r2
          have hspv : sp_instr_step table spSt l = spSt := by
            unfold sp_instr_step
            rw [hlong, hds, hplnone]
            simp
          rw [hspv]
          exact ⟨hic.trans hq2.symm, hq2 ▸ hlen⟩
        · have hc2' : (c2 == '\n' || c2 == ';') = false := by simpa using hc2
          rw [hrest] at hfp
          exact sp_fp_main hds (by decide) hfp hc2' hag hic hlen hlong hpl hokk hsp
    · have hfp : fpPre l = c :: rest := fpPre_of_ne_cr hds hcr
      by_cases hc : (c == '\n' || c == ';') = true
      · unfold process_line at hpl
        rw [hfp] at hpl
        simp only [hc, if_true] at hpl
        rcases quad_eq hpl with ⟨_, hq2⟩
        have hspv : sp_instr_step table spSt l = spSt := by
          unfold sp_instr_step
          rw [hlong, hds]
          simp [hc]
        rw [hspv]
        exact ⟨hic.trans hq2.symm, hq2 ▸ hlen⟩
      · have hc' : (c == '\n' || c == ';') = false := by simpa using hc
        exact sp_fp_main hds hc' hfp hc' hag hic hlen hlong hpl hokk hsp

/-- Fold-level simulation of the two reading loops over the same chunk
list: with agreeing parses and last-position newlines, a first pass that
ends ok and an instruction pass that ends error-free keep IC equal to 100
plus the number of emitted instruction words. -/
theorem sim_instr (lines : List Str) (table : LabelTable) (fpSt : FPState)
    (spSt : SPInstrState)
    (hag : ∀ l ∈ lines, parse_line (fpPre l) = parse_line l)
    (hwf : ∀ l ∈ lines, '\n' ∉ l.dropLast)
    (hic : spSt.current_ic = fpSt.ic)
    (hlen : fpSt.ic = 100 + spSt.emitted.length)
    (hfok : (lines.foldl fp_step fpSt).ok = true)
    (hsp : (lines.foldl (sp_instr_step table) spSt).has_errors = false) :
    (lines.foldl (sp_instr_step table) spSt).current_ic = (lines.foldl fp_step fpSt).ic ∧
    (lines.foldl fp_step fpSt).ic =
      100 + (lines.foldl (sp_instr_step table) spSt).emitted.length := by
  induction lines generalizing fpSt spSt with
  | nil => exact ⟨hic, hlen⟩
  | cons l rest ih =>
    simp only [List.foldl_cons] at hfok hsp ⊢
    have hfok1 : (fp_step fpSt l).ok = true := fp_fold_ok_mono rest _ hfok
    have hsp1 : (sp_instr_step table spSt l).has_errors = false :=
      sp_instr_fold_err_mono rest table _ hsp
    obtain ⟨h1, h2⟩ := sp_fp_step table fpSt spSt l (hag l (by simp)) (hwf l (by simp))
      hic hlen hfok1 hsp1
    exact ih _ _ (fun x hx => hag x (by simp [hx])) (fun x hx => hwf x (by simp [hx]))
      h1 h2 hfok hsp

/-- A quadruple equation read componentwise (first and fourth component). -/
theorem quad_eq_dc {a b : Bool} {t t2 : LabelTable} {i i2 d d2 : Nat}
    (h : ((a, t, i, d) : Bool × LabelTable × Nat × Nat) = (b, t2, i2, d2)) :
    b = a ∧ d2 = d := by
  injection h with h1 h2
  injection h2 with _ h3
  injection h3 with _ h4
  exact ⟨h1.symm, h4.symm⟩

/-- The error flag of one data-encoding iteration is monotone. -/
theorem sp_data_step_err_mono (st : List MachineWord × Bool) (l : Str)
    (h : (sp_data_step st l).2 = false) : st.2 = false := by
  unfold sp_data_step at h
  split at h
  · exact h
  · split at h
    · exact h
    · split at h
      · exact h
      · split at h
        · split at h
          · exact h
          · simp at h
        · exact h

/-- The error flag of the data-encoding loop is monotone. -/
theorem sp_data_fold_err_mono (lines : List Str) (st : List MachineWord × Bool)
    (h : (lines.foldl sp_data_step st).2 = false) : st.2 = false := by
  induction lines generalizing st with
  | nil => exact h
  | cons l rest ih =>
    simp only [List.foldl_cons] at h
    exact sp_data_step_err_mono st l (ih _ h)

/-- Core of the data-pass simulation: when both passes reach the parsing
stage on a line whose two parses agree, a successful first-pass step
advances DC by exactly the number of words the error-free data-encoding
step appends. -/
theorem sp_fp_data_main {fpSt : FPState} {st : List MachineWord × Bool} {l : Str}
    {c0 : Char} {r0 : Str} {c1 : Char} {r1 : Str}
    (hds : dropSpTab l = c0 :: r0)
    (hc0 : (c0 == '\n' || c0 == ';') = false)
    (hfp : fpPre l = c1 :: r1)
    (hc1 : (c1 == '\n' || c1 == ';') = false)
    (hag : parse_line (fpPre l) = parse_line l)
    (hrel : fpSt.dc = st.1.length)
    {okk : Bool} {t2 : LabelTable} {ic2 dc2 : Nat}
    (hpl : process_line l fpSt.table fpSt.ic fpSt.dc = (okk, t2, ic2, dc2))
    (hokk : okk = true)
    (hsp2 : (sp_data_step st l).2 = false) :
    dc2 = (sp_data_step st l).1.length := by
  unfold sp_data_step at hsp2 ⊢
  rw [hds] at hsp2 ⊢
  simp only [hc0, Bool.false_eq_true, if_false] at hsp2 ⊢
  rw [← hag, hfp] at hsp2 ⊢
  unfold process_line at hpl
  rw [hfp] at hpl
  simp only [hc1, Bool.false_eq_true, if_false] at hpl
  cases hP : parse_line (c1 :: r1) with
  | none =>
    rw [hP] at hpl
    simp only at hpl
    rcases quad_eq_dc hpl with ⟨hq1, _⟩
    rw [hokk] at hq1
    exact absurd hq1 (by simp)
  | some parts =>
    rw [hP] at hpl hsp2
    simp only at hpl hsp2 ⊢
    by_cases hd1 : (parts.command == some ".data".toList) = true
    · rw [if_pos hd1] at hpl
      have hcond : (parts.command == some ".data".toList ||
          parts.command == some ".string".toList ||
          parts.command == some ".mat".toList) = true := by
        simp only [hd1, Bool.true_or]
      rw [if_pos hcond] at hsp2 ⊢
      have hpd : process_data_line parts st.1.length =
          some (data_directive_words parts.operands st.1.length) := by
        unfold process_data_line
        rw [if_pos hd1]
      rw [hpd] at hsp2 ⊢
      simp only at hsp2 ⊢
      have hdc : dc2 = fpSt.dc + parts.operands.length := by
        repeat' split at hpl
        all_goals rcases quad_eq_dc hpl with ⟨hq1, hq2⟩
        all_goals
          first
            | exact hq2
            | (rw [hokk] at hq1; exact absurd hq1 (by simp))
      simp only [List.length_append, data_directive_words, List.length_map, List.enum_length]
      omega
    · rw [if_neg hd1] at hpl
      by_cases hd2 : (parts.command == some ".string".toList) = true
      · rw [if_pos hd2] at hpl
        have hcond : (parts.command == some ".data".toList ||
            parts.command == some ".string".toList ||
            parts.command == some ".mat".toList) = true := by
          simp only [hd2, Bool.or_true, Bool.true_or]
        rw [if_pos hcond] at hsp2 ⊢
        cases hops : parts.operands with
        | nil =>
          rw [hops] at hpl
          simp only at hpl
          rcases quad_eq_dc hpl with ⟨hq1, _⟩
          rw [hokk] at hq1
          exact absurd hq1 (by simp)
        | cons op ops2 =>
          cases hops2 : ops2 with
          | cons b bs =>
            rw [hops, hops2] at hpl
            simp only at hpl
            rcases quad_eq_dc hpl with ⟨hq1, _⟩
            rw [hokk] at hq1
            exact absurd hq1 (by simp)
          | nil =>
            rw [hops2] at hops
            rw [hops] at hpl
            simp only at hpl
            have hpd : process_data_line parts st.1.length =
                some (string_directive_words op st.1.length) := by
              unfold process_data_line
              rw [if_neg hd1, if_pos hd2, hops]
            rw [hpd] at hsp2 ⊢
            simp only at hsp2 ⊢
            split at hpl
            · rcases quad_eq_dc hpl with ⟨hq1, _⟩
              rw [hokk] at hq1
              exact absurd hq1 (by simp)
            · split at hpl
              · rcases quad_eq_dc hpl with ⟨hq1, _⟩
                rw [hokk] at hq1
                exact absurd hq1 (by simp)
              · rename_i hq hlen2
                have hge : 2 ≤ op.length := by
                  simp only [Bool.or_eq_true, decide_eq_true_eq, not_or] at hlen2
                  omega
                have hdc : dc2 = fpSt.dc + (op.length - 2 + 1) := by
                  repeat' split at hpl
                  all_goals rcases quad_eq_dc hpl with ⟨hq1, hq2⟩
                  all_goals
                    first
                      | exact hq2
                      | (rw [hokk] at hq1; exact absurd hq1 (by simp))
                simp only [string_directive_words, List.length_append, List.length_map,
                  List.enum_length, List.length_drop, List.length_take, List.length_cons,
                  List.length_nil]
                omega
      · rw [if_neg hd2] at hpl
        by_cases hd3 : (parts.command == some ".mat".toList) = true
        · rw [if_pos hd3] at hpl
          have hcond : (parts.command == some ".data".toList ||
              parts.command == some ".string".toList ||
              parts.command == some ".mat".toList) = true := by
            simp only [hd3, Bool.or_true]
          rw [if_pos hcond] at hsp2 ⊢
          cases hops : parts.operands with
          | nil =>
            rw [hops] at hpl
            simp only at hpl
            rcases quad_eq_dc hpl with ⟨hq1, _⟩
            rw [hokk] at hq1
            exact absurd hq1 (by simp)
          | cons op0 restOps =>
            rw [hops] at hpl
            simp only at hpl
            cases hdim : parse_matrix_dimensions op0 with
            | none =>
              rw [hdim] at hpl
              rcases quad_eq_dc hpl with ⟨hq1, _⟩
              rw [hokk] at hq1
              exact absurd hq1 (by simp)
            | some rc =>
              rcases rc with ⟨r, c⟩
              rw [hdim] at hpl
              simp only at hpl
              have hpd : process_data_line parts st.1.length =
                  some (mat_directive_words parts.operands r c st.1.length) := by
                unfold process_data_line
                rw [if_neg hd1, if_neg hd2, if_pos hd3, hops]
                simp only [List.get?]
                rw [hdim]
              rw [hpd] at hsp2 ⊢
              simp only at hsp2 ⊢
              have hdc : dc2 = fpSt.dc + r * c := by
                repeat' split at hpl
                all_goals rcases quad_eq_dc hpl with ⟨hq1, hq2⟩
                all_goals
                  first
                    | exact hq2
                    | (rw [hokk] at hq1; exact absurd hq1 (by simp))
              simp only [List.length_append, mat_directive_words, List.length_map,
                List.length_range]
              omega
        · have hcond : (parts.command == some ".data".toList ||
              parts.command == some ".string".toList ||
              parts.command == some ".mat".toList) = false := by
            simp only [Bool.or_eq_false_iff]
            exact ⟨⟨by simpa using hd1, by simpa using hd2⟩, by simpa using hd3⟩
          rw [hcond] at hsp2 ⊢
          simp only [Bool.false_eq_true, if_false] at hsp2 ⊢
          have hdc : dc2 = fpSt.dc := by
            rw [if_neg hd3] at hpl
            repeat' split at hpl
            all_goals exact (quad_eq_dc hpl).2
          exact hdc.trans hrel

/-- Per-line simulation of the first pass against the data-encoding loop:
DC advances by exactly the number of appended data words. -/
theorem sp_fp_data_step (fpSt : FPState) (st : List MachineWord × Bool) (l : Str)
    (hag : parse_line (fpPre l) = parse_line l)
    (hwf : '\n' ∉ l.dropLast)
    (hrel : fpSt.dc = st.1.length)
    (hfok : (fp_step fpSt l).ok = true)
    (hsp2 : (sp_data_step st l).2 = false) :
    (fp_step fpSt l).dc = (sp_data_step st l).1.length := by
  have hlong : line_too_long l = false := by
    by_contra hl
    rw [Bool.not_eq_false] at hl
    unfold fp_step at hfok
    rw [if_pos hl] at hfok
    simp at hfok
  have hfpstep : fp_step fpSt l =
      (match process_line l fpSt.table fpSt.ic fpSt.dc with
       | (okk, t, ic, dc) => { table := t, ic := ic, dc := dc, ok := fpSt.ok && okk }) := by
    unfold fp_step
    rw [hlong]
    simp
  rcases hpl : process_line l fpSt.table fpSt.ic fpSt.dc with ⟨okk, t2, ic2, dc2⟩
  rw [hpl] at hfpstep
  rw [hfpstep] at hfok ⊢
  simp only at hfok ⊢
  have hokk : okk = true := (Bool.and_eq_true _ _ |>.mp hfok).2
  cases hds : dropSpTab l with
  | nil =>
    have hfp : fpPre l = [] := fpPre_of_nil hds
    unfold process_line at hpl
    rw [hfp] at hpl
    rcases quad_eq_dc hpl with ⟨_, hq2⟩
    have hspv : sp_data_step st l = st := by
      unfold sp_data_step
      rw [hds]
    rw [hspv]
    exact hq2.trans hrel
  | cons c rest =>
    by_cases hcr : c = '\r'
    · subst hcr
      have hfp : fpPre l = rest := fpPre_of_cr hds
      cases hrest : rest with
      | nil =>
        unfold process_line at hpl
        rw [hfp, hrest] at hpl
        rcases quad_eq_dc hpl with ⟨_, hq2⟩
        have hplnone : parse_line l = none := by
          rw [← hag, hfp, hrest]
          exact parse_line_nil
        have hspv : sp_data_step st l = st := by
          unfold sp_data_step
          rw [hds, hplnone]
          simp
        rw [hspv]
        exact hq2.trans hrel
      | cons c2 r2 =>
        by_cases hc2 : (c2 == '\n' || c2 == ';') = true
        · unfold process_line at hpl
          rw [hfp, hrest] at hpl
          simp only [hc2, if_true] at hpl
          rcases quad_eq_dc hpl with ⟨_, hq2⟩
          have hplnone : parse_line l = none := by
            rw [← hag, hfp, hrest]
            have hor : c2 = '\n' ∨ c2 = ';' := by simpa using hc2
            rcases hor with hc2' | hc2'
            · subst hc2'
              cases hr2 : r2 with
              | nil => exact parse_line_newline
              | cons a r3 =>
                exfalso
                obtain ⟨pre, hpre⟩ := dropSpTab_suffix l
                rw [hds, hrest, hr2] at hpre
                apply hwf
                rw [hpre]
                have hm := mem_dropLast_append (pre ++ ['\r']) (a :: r3) '\n' (by simp)
                simpa using hm
            · subst hc2'
              exact parse_line_semicolon r2
          have hspv : sp_data_step st l = st := by
            unfold sp_data_step
            rw [hds, hplnone]
            simp
          rw [hspv]
          exact hq2.trans hrel
        · have hc2' : (c2 == '\n' || c2 == ';') = false := by simpa using hc2
          rw [hrest] at hfp
          exact sp_fp_data_main hds (by decide) hfp hc2' hag hrel hpl hokk hsp2
    · have hfp : fpPre l = c :: rest := fpPre_of_ne_cr hds hcr
      by_cases hc : (c == '\n' || c == ';') = true
      · unfold process_line at hpl
        rw [hfp] at hpl
        simp only [hc, if_true] at hpl
        rcases quad_eq_dc hpl with ⟨_, hq2⟩
        have hspv : sp_data_step st l = st := by
          unfold sp_data_step
          rw [hds]
          simp [hc]
        rw [hspv]
        exact hq2.trans hrel
      · have hc' : (c == '\n' || c == ';') = false := by simpa using hc
        exact sp_fp_data_main hds hc' hfp hc' hag hrel hpl hokk hsp2

/-- Fold-level simulation of the first pass against the data-encoding
loop: DC_final counts exactly the emitted data words. -/
theorem sim_data (lines : List Str) (fpSt : FPState) (st : List MachineWord × Bool)
    (hag : ∀ l ∈ lines, parse_line (fpPre l) = parse_line l)
    (hwf : ∀ l ∈ lines, '\n' ∉ l.dropLast)
    (hrel : fpSt.dc = st.1.length)
    (hfok : (lines.foldl fp_step fpSt).ok = true)
    (hsp2 : (lines.foldl sp_data_step st).2 = false) :
    (lines.foldl fp_step fpSt).dc = (lines.foldl sp_data_step st).1.length := by
  induction lines generalizing fpSt st with
  | nil => exact hrel
  | cons l rest ih =>
    simp only [List.foldl_cons] at hfok hsp2 ⊢
    have hfok1 : (fp_step fpSt l).ok = true := fp_fold_ok_mono rest _ hfok
    have hsp1 : (sp_data_step st l).2 = false := sp_data_fold_err_mono rest _ hsp2
    have h1 := sp_fp_data_step fpSt st l (hag l (by simp)) (hwf l (by simp)) hrel hfok1 hsp1
    exact ih _ _ (fun x hx => hag x (by simp [hx])) (fun x hx => hwf x (by simp [hx]))
      h1 hfok hsp2

/-- C6 (amended): over the fgets chunks of a program in which every line
parses identically under the first pass's pointer-advanced view and the
second pass's raw re-parse, and in which a newline occurs only as a line's
last character, an error-free run of both passes produces an instruction
image of exactly IC_final - 100 words and a data image of exactly DC_final
words. -/
theorem c6_image_sizes (lines : List Str)
    (hag : ∀ l ∈ lines, parse_line (fpPre l) = parse_line l)
    (hwf : ∀ l ∈ lines, '\n' ∉ l.dropLast)
    (hok : (first_pass_on_table lines).ok = true)
    (hsp : (second_pass lines (first_pass_on_table lines).table
        (first_pass_on_table lines).ic (first_pass_on_table lines).dc).has_errors = false) :
    (second_pass lines (first_pass_on_table lines).table (first_pass_on_table lines).ic
        (first_pass_on_table lines).dc).emitted.length =
      (first_pass_on_table lines).ic - 100 ∧
    (second_pass lines (first_pass_on_table lines).table (first_pass_on_table lines).ic
        (first_pass_on_table lines).dc).data_words.length =
      (first_pass_on_table lines).dc := by
  obtain ⟨hic, hdc, hokf⟩ := first_pass_on_table_fields lines
  unfold second_pass at hsp ⊢
  by_cases hlt : (first_pass_on_table lines).ic < 100
  · rw [if_pos hlt] at hsp
    simp at hsp
  · rw [if_neg hlt] at hsp ⊢
    dsimp only at hsp ⊢
    have hinerr : (lines.foldl (sp_instr_step (first_pass_on_table lines).table)
        ⟨100, [], [], false⟩).has_errors = false := by
      have := sp_data_fold_err_mono lines _ hsp
      simpa using this
    have hfok : (lines.foldl fp_step ⟨[], 100, 0, true⟩).ok = true := by
      rw [hokf] at hok
      unfold first_pass_fold at hok
      exact hok
    obtain ⟨h1, h2⟩ := sim_instr lines (first_pass_on_table lines).table
      ⟨[], 100, 0, true⟩ ⟨100, [], [], false⟩ hag hwf rfl rfl hfok hinerr
    have h3 := sim_data lines ⟨[], 100, 0, true⟩
      ([], (lines.foldl (sp_instr_step (first_pass_on_table lines).table)
        ⟨100, [], [], false⟩).has_errors) hag hwf rfl hfok hsp
    unfold first_pass_fold at hic hdc
    constructor
    · rw [hic]
      omega
    · rw [hdc, h3]

/-- Witness for c6_image_sizes: a program with one two-operand instruction
(3 words), one data directive (2 words) and stop (1 word); IC_final = 104,
DC_final = 2, and the two images have exactly 4 and 2 words. -/
theorem c6_image_sizes_witness :
    (second_pass c6_witness_lines (first_pass_on_table c6_witness_lines).table
        (first_pass_on_table c6_witness_lines).ic
        (first_pass_on_table c6_witness_lines).dc).emitted.length =
      (first_pass_on_table c6_witness_lines).ic - 100 ∧
    (second_pass c6_witness_lines (first_pass_on_table c6_witness_lines).table
        (first_pass_on_table c6_witness_lines).ic
        (first_pass_on_table c6_witness_lines).dc).data_words.length =
      (first_pass_on_table c6_witness_lines).dc :=
  c6_image_sizes c6_witness_lines (by decide) (by decide) (by decide) (by decide)
